import Mathlib

/-!
Verification of the ASR literal-selection pipeline.

This file gives a shallow embedding, in Lean 4, of the core functions of the
ASR repository (DIMACS codec, unit-clause mutator, selection policies,
solver-log parsers, iteration controllers) and proves or refutes the frozen
claims about them.

Modelling conventions:
- DIMACS text is modelled at the whitespace-token level: a file is a list of
  lines, each line a list of tokens.  A token is either an integer token
  (a token whose text is a decimal integer, as produced by Python str(int))
  or a word token carrying its characters.  Decimal rendering of integers
  never starts with the characters c or p, which is what the line
  dispatching in the Python code inspects; this fact is baked into the token
  type.  Whitespace formatting itself is outside every claim.
- Solver-log text is modelled as a list of lines, each line a list of
  characters, with Python str helpers (strip, split, startswith, lower,
  replace) reimplemented on lists of characters.
- Python floats are modelled as rationals.  The only float operation whose
  value no claim depends on is sqrt (norm ** 0.5 in power iteration); it is
  passed in as an abstract function parameter sqrtQ, so every theorem holds
  for any model of float sqrt.  Python float() string parsing is modelled on
  the plain decimal forms the solver emits.
- Python functions that can raise or sys.exit are modelled with PyResult.
- Python dict/set values are modelled as functions with a default (dict.get)
  and as Finset respectively; Python list.sort(key, reverse) is modelled by
  a stable insertion sort, which agrees with CPython's stable sort.
-/

/-- Result of a Python call: normal return, or an uncaught exception /
sys.exit with a diagnostic. -/
inductive PyResult (α : Type) where
  | ok (a : α)
  | err (msg : String)
deriving DecidableEq, Repr

namespace PyResult

def isOk {α : Type} : PyResult α → Bool
  | .ok _ => true
  | .err _ => false

def mapVal {α β : Type} (f : α → β) : PyResult α → PyResult β
  | .ok a => .ok (f a)
  | .err m => .err m

end PyResult

/-- One whitespace-separated token of a DIMACS file: either a token whose
text is a decimal integer (int tokens are produced by str on ints, so they
never begin with a letter), or any other word. -/
inductive Tok where
  | int (i : ℤ)
  | word (w : List Char)
deriving DecidableEq, Repr

/-- A line of a DIMACS file, as its list of whitespace-separated tokens. -/
abbrev DLine := List Tok

/-- Python int(tok): succeeds exactly on integer tokens. -/
def tokInt? : Tok → Option ℤ
  | .int i => some i
  | .word _ => none

/-- line.startswith(single-character c) on the stripped line: the first
character of the first token.  Decimal integer text starts with a digit or
a minus sign, never with c or p. -/
def tokStartsChar : Tok → Char → Bool
  | .int _, _ => false
  | .word [], _ => false
  | .word (a :: _), c => a = c

def lineStartsChar : DLine → Char → Bool
  | [], _ => false
  | t :: _, c => tokStartsChar t c

/-- In-memory CNF value as the clean runners build it: header variable
count, clause list, preserved comment lines. -/
structure Cnf where
  nvars : ℤ
  clauses : List (List ℤ)
  comments : List DLine
deriving DecidableEq, Repr

def errNoHeader : String := "Missing/invalid DIMACS header (p cnf ...)."

def errValueError : String := "ValueError: invalid literal for int()"

def wordCnf : Tok := Tok.word ("cnf".toList)

def wordP : Tok := Tok.word ("p".toList)

/-- Loop body state of read_dimacs from run_asr_v4_rayleigh_clean.py (the
force-walk runner has a character-identical copy): accumulated nvars,
clauses, comments, processing the remaining lines. -/
def read_dimacs_go (nvars : ℤ) (cls : List (List ℤ)) (cms : List DLine) :
    List DLine → PyResult Cnf
  | [] =>
      if nvars ≤ 0 then .err errNoHeader
      else .ok ⟨nvars, cls, cms⟩
  | line :: rest =>
      if line.isEmpty then read_dimacs_go nvars cls cms rest
      else if lineStartsChar line ('c') then
        read_dimacs_go nvars cls (cms ++ [line]) rest
      else if lineStartsChar line ('p') then
        if 4 ≤ line.length ∧ line.get? 1 = some wordCnf then
          match (line.get? 2).bind tokInt? with
          | some i => read_dimacs_go i cls cms rest
          | none => .err errValueError
        else read_dimacs_go nvars cls cms rest
      else
        match line.mapM tokInt? with
        | none => .err errValueError
        | some lits =>
            let lits := if lits.getLast? = some 0 then lits.dropLast else lits
            read_dimacs_go nvars (cls ++ [lits]) cms rest

/-- read_dimacs (run_asr_v4_rayleigh_clean.py lines 11-37; identical copy in
run_asr_v4_forcewalk.py): comment lines collected, last valid p-header sets
nvars, clause lines parsed as ints with one trailing zero stripped, error if
no positive nvars was found. -/
def read_dimacs (lines : List DLine) : PyResult Cnf :=
  read_dimacs_go 0 [] [] lines

/-- Header line emitted by write_dimacs: p cnf nvars (number of clauses). -/
def headerLine (nvars : ℤ) (ncl : ℕ) : DLine :=
  [wordP, wordCnf, Tok.int nvars, Tok.int ncl]

/-- Serialization of one clause: its literals then the 0 terminator; an
empty clause is a bare 0 line. -/
def clauseLine (cl : List ℤ) : DLine :=
  cl.map Tok.int ++ [Tok.int 0]

/-- write_dimacs (run_asr_v4_rayleigh_clean.py lines 39-48): comments first,
then the header with the current clause-list length, then one line per
clause. -/
def write_dimacs (c : Cnf) : List DLine :=
  c.comments ++ [headerLine c.nvars c.clauses.length] ++ c.clauses.map clauseLine

/-- add_unit_clauses (run_asr_v4_rayleigh_clean.py lines 50-54), at the level
of the CNF value between its read_dimacs and write_dimacs calls: append one
unit clause per literal, in order. -/
def add_unit_clauses (c : Cnf) (new_units : List ℤ) : Cnf :=
  { c with clauses := c.clauses ++ new_units.map (fun lit => [lit]) }

/-- Well-formedness of a comment line as read_dimacs itself produces it:
nonempty and starting with the character c. -/
def IsCommentLine (l : DLine) : Prop :=
  lineStartsChar l ('c') = true

instance (l : DLine) : Decidable (IsCommentLine l) := by
  unfold IsCommentLine; infer_instance

-- Round-trip lemmas for read_dimacs_go over the three segments that
-- write_dimacs emits.

theorem read_dimacs_go_comments (nvars : ℤ) (cls : List (List ℤ))
    (cms : List DLine) (extra : List DLine) (rest : List DLine)
    (h : ∀ l ∈ extra, IsCommentLine l) :
    read_dimacs_go nvars cls cms (extra ++ rest) =
      read_dimacs_go nvars cls (cms ++ extra) rest := by
  induction extra generalizing cms with
  | nil => simp
  | cons a t ih =>
      have ha : lineStartsChar a ('c') = true := h a (List.mem_cons_self a t)
      have hne : a.isEmpty = false := by
        cases a with
        | nil => simp [lineStartsChar] at ha
        | cons x xs => rfl
      have step : read_dimacs_go nvars cls cms ((a :: t) ++ rest) =
          read_dimacs_go nvars cls (cms ++ [a]) (t ++ rest) := by
        simp [read_dimacs_go, hne, ha]
      rw [step, ih (cms ++ [a]) (fun l hl => h l (List.mem_cons_of_mem a hl)),
        List.append_assoc]
      rfl

theorem read_dimacs_go_header (nvars nv : ℤ) (cls : List (List ℤ))
    (cms : List DLine) (ncl : ℕ) (rest : List DLine) :
    read_dimacs_go nvars cls cms (headerLine nv ncl :: rest) =
      read_dimacs_go nv cls cms rest := by
  simp [read_dimacs_go, headerLine, lineStartsChar, tokStartsChar, wordP,
    wordCnf, tokInt?]

theorem read_dimacs_go_clauses (nvars : ℤ) (cls : List (List ℤ))
    (cms : List DLine) (body : List (List ℤ)) (rest : List DLine) :
    read_dimacs_go nvars cls cms (body.map clauseLine ++ rest) =
      read_dimacs_go nvars (cls ++ body) cms rest := by
  induction body generalizing cls with
  | nil => simp
  | cons cl t ih =>
      have hmap : (clauseLine cl).mapM tokInt? = some (cl ++ [0]) := by
        induction cl with
        | nil => rfl
        | cons x xs ihx =>
            simp only [clauseLine, List.map_cons, List.cons_append,
              List.mapM_cons, tokInt?] at ihx ⊢
            rw [ihx]
            rfl
      have hne : (clauseLine cl).isEmpty = false := by
        cases cl <;> rfl
      have hc : lineStartsChar (clauseLine cl) ('c') = false := by
        cases cl <;> rfl
      have hp : lineStartsChar (clauseLine cl) ('p') = false := by
        cases cl <;> rfl
      have hstrip : (if (cl ++ [(0:ℤ)]).getLast? = some 0
          then (cl ++ [0]).dropLast else (cl ++ [0])) = cl := by
        simp
      have step : read_dimacs_go nvars cls cms ((clauseLine cl :: t.map clauseLine) ++ rest) =
          read_dimacs_go nvars (cls ++ [cl]) cms (t.map clauseLine ++ rest) := by
        simp only [List.cons_append, read_dimacs_go, hne, hc, hp,
          Bool.false_eq_true, if_false]
        rw [hmap]
        simp [hstrip]
      rw [List.map_cons, step, ih (cls ++ [cl]), List.append_assoc]
      rfl

/-- C3: parsing the serialization of a well-formed CNF value returns the
value unchanged: read_dimacs (write_dimacs c) = ok c whenever c has a
positive variable count and its comments are comment lines (both properties
hold of every value read_dimacs itself produces). -/
theorem c3_roundtrip (c : Cnf) (hnv : 1 ≤ c.nvars)
    (hcm : ∀ l ∈ c.comments, IsCommentLine l) :
    read_dimacs (write_dimacs c) = PyResult.ok c := by
  unfold read_dimacs write_dimacs
  rw [List.append_assoc, read_dimacs_go_comments 0 [] [] c.comments _ hcm,
    List.singleton_append, read_dimacs_go_header,
    ← List.append_nil (c.clauses.map clauseLine), read_dimacs_go_clauses]
  simp only [read_dimacs_go, List.nil_append]
  rw [if_neg (by omega)]

/-- C3 witness: round-trip at a concrete CNF with a comment and an empty
clause. -/
theorem c3_roundtrip_witness :
    read_dimacs (write_dimacs ⟨3, [[1, -2], []], [[Tok.word ("c".toList), Tok.word ("hi".toList)]]⟩) =
      PyResult.ok ⟨3, [[1, -2], []], [[Tok.word ("c".toList), Tok.word ("hi".toList)]]⟩ :=
  c3_roundtrip ⟨3, [[1, -2], []], [[Tok.word ("c".toList), Tok.word ("hi".toList)]]⟩
    (by decide) (by decide)

/-- C2: add_unit_clauses appends exactly one unit clause per input literal,
in order, leaves nvars and the existing clauses and comments unchanged, and
the serialized header clause count grows by exactly the number of added
literals (write_dimacs always emits the current clause-list length). -/
theorem c2_add_units (c : Cnf) (L : List ℤ) :
    (add_unit_clauses c L).clauses = c.clauses ++ L.map (fun lit => [lit]) ∧
    (add_unit_clauses c L).clauses.length = c.clauses.length + L.length ∧
    (add_unit_clauses c L).nvars = c.nvars ∧
    (add_unit_clauses c L).comments = c.comments ∧
    write_dimacs (add_unit_clauses c L) =
      c.comments ++ [headerLine c.nvars (c.clauses.length + L.length)] ++
        c.clauses.map clauseLine ++ L.map (fun lit => clauseLine [lit]) := by
  refine ⟨rfl, by simp [add_unit_clauses], rfl, rfl, ?_⟩
  simp [write_dimacs, add_unit_clauses, List.map_append, List.append_assoc,
    Function.comp]

/-!
Stable sorting.  CPython's list.sort(key=..., reverse=...) is stable; any
stable sort by a given priority yields the same list, so we model it by a
stable insertion sort parameterized by a strict precedes-test lt: lt b a
means b must be placed strictly before a.
-/

/-- Stable insertion: walk past elements that strictly precede a, then place
a (before any element that ties with it, matching stability on a list whose
original order is preserved). -/
def pyInsert {α : Type} (lt : α → α → Bool) (a : α) : List α → List α
  | [] => [a]
  | b :: bs => if lt b a then b :: pyInsert lt a bs else a :: b :: bs

/-- Stable sort modelling Python list.sort with a strict priority lt. -/
def pySort {α : Type} (lt : α → α → Bool) : List α → List α
  | [] => []
  | a :: t => pyInsert lt a (pySort lt t)

theorem pyInsert_perm {α : Type} (lt : α → α → Bool) (a : α) (l : List α) :
    (pyInsert lt a l).Perm (a :: l) := by
  induction l with
  | nil => simp [pyInsert]
  | cons b bs ih =>
      simp only [pyInsert]
      by_cases h : lt b a
      · simp only [h, if_true]
        exact (ih.cons b).trans (List.Perm.swap a b bs)
      · simp [h]

theorem pySort_perm {α : Type} (lt : α → α → Bool) (l : List α) :
    (pySort lt l).Perm l := by
  induction l with
  | nil => simp [pySort]
  | cons a t ih => exact (pyInsert_perm lt a (pySort lt t)).trans (ih.cons a)

theorem pySort_length {α : Type} (lt : α → α → Bool) (l : List α) :
    (pySort lt l).length = l.length :=
  (pySort_perm lt l).length_eq

theorem pySort_mem {α : Type} (lt : α → α → Bool) (l : List α) (a : α) :
    a ∈ pySort lt l ↔ a ∈ l :=
  (pySort_perm lt l).mem_iff

theorem sublist_pyInsert {α : Type} (lt : α → α → Bool) (a : α)
    (s l : List α) (h : s.Sublist l) : s.Sublist (pyInsert lt a l) := by
  induction l generalizing s with
  | nil =>
      cases List.sublist_nil.mp h
      exact List.nil_sublist _
  | cons b bs ih =>
      by_cases hba : lt b a
      · simp only [pyInsert, hba, if_true]
        cases h with
        | cons _ h2 => exact (ih s h2).cons b
        | cons₂ _ h2 => exact ((ih _ h2).cons₂ b)
      · simp only [pyInsert, hba, if_false]
        exact h.cons a

/-- Stability: if b does not strictly precede a and a occurs before b in the
input, then a still occurs before b after sorting. -/
theorem pySort_pair_stable {α : Type} (lt : α → α → Bool) (a b : α)
    (hba : lt b a = false) :
    ∀ l : List α, [a, b].Sublist l → [a, b].Sublist (pySort lt l) := by
  have ins : ∀ l : List α, b ∈ l → [a, b].Sublist (pyInsert lt a l) := by
    intro l
    induction l with
    | nil => intro h; cases h
    | cons c cs ih =>
        intro hmem
        by_cases hca : lt c a
        · simp only [pyInsert, hca, if_true]
          rcases List.mem_cons.mp hmem with hbc | hin
          · exact absurd (hbc ▸ hca) (by simp [hba])
          · exact (ih hin).cons c
        · simp only [pyInsert, hca, if_false]
          exact (List.singleton_sublist.mpr hmem).cons₂ a
  intro l
  induction l with
  | nil => intro h; cases (List.sublist_nil.mp h)
  | cons c cs ih =>
      intro h
      cases h with
      | cons _ h2 =>
          exact sublist_pyInsert lt c _ _ (ih h2)
      | cons₂ _ h2 =>
          have hbmem : b ∈ pySort lt cs :=
            (pySort_mem lt cs b).mpr (List.singleton_sublist.mp h2)
          exact ins (pySort lt cs) hbmem

/-!
ASR v0b spectral picker (pick_literals_asr_v0b.py) and the frequency
baseline (pick_literals_freq.py): DIMACS parsing with occurrence counts,
and top-K ranking with the lexicographic (-score, var) sort key.
-/

/-- Python dict bump: d[k] = d.get(k, 0) + 1. -/
def bump (f : ℤ → ℕ) (k : ℤ) : ℤ → ℕ :=
  fun x => if x = k then f k + 1 else f x

def errBadHeaderV0b : String := "error: bad header line"

def errNoHeaderV0b : String := "error: DIMACS header not found"

def errNoClausesV0b : String := "error: no clauses parsed from CNF body"

/-- Clause-line scan of parse_dimacs (pick_literals_asr_v0b.py lines 60-71):
walk the tokens, stop at the first token equal to the character 0, convert
each other token with int() (a non-integer token raises), and count the
positive / negative occurrence of each literal as it is collected. -/
def v0b_scan : List Tok → (ℤ → ℕ) → (ℤ → ℕ) →
    PyResult (List ℤ × (ℤ → ℕ) × (ℤ → ℕ))
  | [], pos, neg => .ok ([], pos, neg)
  | .int 0 :: _, pos, neg => .ok ([], pos, neg)
  | .int i :: rest, pos, neg =>
      let v := |i|
      let pos2 := if 0 < i then bump pos v else pos
      let neg2 := if 0 < i then neg else bump neg v
      match v0b_scan rest pos2 neg2 with
      | .ok (lits, p, n) => .ok (i :: lits, p, n)
      | .err m => .err m
  | .word _ :: _, _, _ => .err errValueError

/-- Parser loop of parse_dimacs (pick_literals_asr_v0b.py lines 38-87):
comments skipped (not preserved), strict header check (dies on a malformed
p-line), clause lines scanned up to the 0 terminator, and a clause that
reduces to zero literals is DISCARDED (the `if lits:` guard), unlike
read_dimacs in the v4 runners. -/
def parse_dimacs_go (num_vars : Option ℤ) (cls : List (List ℤ))
    (pos neg : ℤ → ℕ) : List DLine →
    PyResult (ℤ × List (List ℤ) × (ℤ → ℕ) × (ℤ → ℕ))
  | [] =>
      match num_vars with
      | none => .err errNoHeaderV0b
      | some nv => if cls.isEmpty then .err errNoClausesV0b else .ok (nv, cls, pos, neg)
  | line :: rest =>
      if line.isEmpty then parse_dimacs_go num_vars cls pos neg rest
      else if lineStartsChar line ('c') then parse_dimacs_go num_vars cls pos neg rest
      else if lineStartsChar line ('p') then
        if 4 ≤ line.length ∧ line.get? 0 = some wordP ∧ line.get? 1 = some wordCnf then
          match (line.get? 2).bind tokInt? with
          | some i => parse_dimacs_go (some i) cls pos neg rest
          | none => .err errValueError
        else .err errBadHeaderV0b
      else
        match v0b_scan line pos neg with
        | .err m => .err m
        | .ok (lits, pos2, neg2) =>
            parse_dimacs_go num_vars
              (if lits.isEmpty then cls else cls ++ [lits]) pos2 neg2 rest

/-- parse_dimacs of pick_literals_asr_v0b.py: returns
(num_vars, clauses, pos, neg). -/
def parse_dimacs (lines : List DLine) :
    PyResult (ℤ × List (List ℤ) × (ℤ → ℕ) × (ℤ → ℕ)) :=
  parse_dimacs_go none [] (fun _ => 0) (fun _ => 0) lines

/-- Python range(1, n + 1) as a list of ℤ. -/
def varRangeZ (n : ℤ) : List ℤ :=
  (List.range n.toNat).map (fun i : ℕ => (i : ℤ) + 1)

/-- Strict precedes-test equivalent to ascending sort by the key
(-score, var) used in pick_top_k_literals (line 165). -/
def v0bLt : (ℚ × ℤ) → (ℚ × ℤ) → Bool :=
  fun x y => decide (y.1 < x.1 ∨ (x.1 = y.1 ∧ x.2 < y.2))

/-- Candidate list of pick_top_k_literals (lines 155-160): (score, var) for
each var in 1..num_vars with strictly positive score, in ascending var
order. -/
def v0b_scored (num_vars : ℤ) (var_score : ℤ → ℚ) : List (ℚ × ℤ) :=
  (varRangeZ num_vars).filterMap
    (fun v => if 0 < var_score v then some (var_score v, v) else none)

def errNoPositive : String := "no variables had positive score (unexpected)"

/-- pick_top_k_literals (pick_literals_asr_v0b.py lines 154-174): error only
when NO variable has positive score; otherwise sort by (-score, var), take
the first k (silently fewer when fewer candidates exist), and resolve
polarity by majority occurrence count with ties positive. -/
def pick_top_k_literals (num_vars : ℤ) (var_score : ℤ → ℚ)
    (pos neg : ℤ → ℕ) (k : ℕ) : PyResult (List ℤ) :=
  let scored := v0b_scored num_vars var_score
  if scored.isEmpty then .err errNoPositive
  else
    .ok (((pySort v0bLt scored).take k).map
      (fun sv => if neg sv.2 ≤ pos sv.2 then sv.2 else -sv.2))

/-- Strict precedes-test for the frequency baseline sort key
(-total, var) (pick_literals_freq.py line 87). -/
def freqLt : (ℕ × ℤ) → (ℕ × ℤ) → Bool :=
  fun x y => decide (y.1 < x.1 ∨ (x.1 = y.1 ∧ x.2 < y.2))

/-- Candidate list of pick_literals_freq.py lines 76-80: (total, var) for
each var with at least one occurrence. -/
def freq_counts (num_vars : ℤ) (pos neg : ℤ → ℕ) : List (ℕ × ℤ) :=
  (varRangeZ num_vars).filterMap
    (fun v => if 0 < pos v + neg v then some (pos v + neg v, v) else none)

def errNoLiterals : String := "no literals found in CNF body"

/-- Ranking half of pick_literals_freq.py (lines 76-98): dies only when no
variable occurs at all; otherwise sorts by (-total, var), takes the first K
(silently fewer when fewer candidates exist), majority polarity with ties
positive. -/
def pick_literals_freq (num_vars : ℤ) (pos neg : ℤ → ℕ) (K : ℕ) :
    PyResult (List ℤ) :=
  let counts := freq_counts num_vars pos neg
  if counts.isEmpty then .err errNoLiterals
  else
    .ok (((pySort freqLt counts).take K).map
      (fun tv => if neg tv.2 ≤ pos tv.2 then tv.2 else -tv.2))

def errTooFewLiterals : String := "pick_literals returned fewer literals than expected"

/-- pick_literals wrapper in run_asr_v1.py (lines 117-131): parse the pick
script output, skipping non-integer tokens, and die when fewer than k
literals came back; otherwise return the first k. -/
def pick_literals_v1 (out : List Tok) (k : ℕ) : PyResult (List ℤ) :=
  let lits := out.filterMap tokInt?
  if lits.length < k then .err errTooFewLiterals else .ok (lits.take k)

/-!
The v4 Rayleigh-style scorer (run_asr_v4_rayleigh_clean.py lines 100-196;
run_asr_v4_forcewalk.py has a character-identical copy).  Python float
arrays become lists of ℚ; norm ** 0.5 becomes the abstract parameter sqrtQ.
Out-of-range literals would raise IndexError in the Python pos/neg loops;
the model's List.set is a no-op there (no claim exercises that path).
-/

/-- build_clause_vars (lines 100-109): per clause, the list of in-range
variables of its literals (signs dropped, duplicates kept). -/
def build_clause_vars (clauses : List (List ℤ)) (nvars : ℕ) : List (List ℕ) :=
  clauses.map (fun cl => (cl.map Int.natAbs).filter (fun v => decide (1 ≤ v ∧ v ≤ nvars)))

/-- Initial score array of power_iter_var_scores (lines 113-116): index 0
unused (0.0), every variable 1..nvars set to 1.0 — occurring or not. -/
def initX (nvars : ℕ) : List ℚ :=
  0 :: List.replicate nvars 1

/-- Clause scores y (lines 119-125): per clause the sum of its variables'
current scores. -/
def clauseScores (x : List ℚ) (cv : List (List ℕ)) : List ℚ :=
  cv.map (fun vs => (vs.map (fun v => x.getD v 0)).sum)

/-- Accumulation x2[v] += y[j] for each occurrence of v in clause j
(lines 128-132). -/
def accumClause (acc : List ℚ) (vs : List ℕ) (val : ℚ) : List ℚ :=
  vs.foldl (fun a v => a.set v (a.getD v 0 + val)) acc

def newX2 (cv : List (List ℕ)) (y : List ℚ) (nvars : ℕ) : List ℚ :=
  (cv.zip y).foldl (fun acc p => accumClause acc p.1 p.2)
    (List.replicate (nvars + 1) 0)

/-- Sum of squares over indices 1..nvars (lines 135-137). -/
def sumSq (x2 : List ℚ) (nvars : ℕ) : ℚ :=
  ((List.range nvars).map (fun i => x2.getD (i + 1) 0 * x2.getD (i + 1) 0)).sum

/-- Main loop of power_iter_var_scores (lines 118-142): on zero norm, break
and return the current vector; otherwise replace entries 1..nvars by
x2[v] / norm (index 0 stays 0.0). -/
def power_iter_var_scores_go (sqrtQ : ℚ → ℚ) (cv : List (List ℕ)) (nvars : ℕ) :
    ℕ → List ℚ → List ℚ
  | 0, x => x
  | iters + 1, x =>
      let y := clauseScores x cv
      let x2 := newX2 cv y nvars
      let norm := sqrtQ (sumSq x2 nvars)
      if norm = 0 then x
      else power_iter_var_scores_go sqrtQ cv nvars iters
        (0 :: (List.range nvars).map (fun i => x2.getD (i + 1) 0 / norm))

/-- power_iter_var_scores (lines 111-144). -/
def power_iter_var_scores (sqrtQ : ℚ → ℚ) (cv : List (List ℕ)) (nvars : ℕ)
    (iters : ℕ) : List ℚ :=
  power_iter_var_scores_go sqrtQ cv nvars iters (initX nvars)

/-- Norm computed in the first loop pass, starting from the all-ones init. -/
def firstNorm (sqrtQ : ℚ → ℚ) (cv : List (List ℕ)) (nvars : ℕ) : ℚ :=
  sqrtQ (sumSq (newX2 cv (clauseScores (initX nvars) cv) nvars) nvars)

/-- Clause mass (lines 152-157): sum of x over the clause's literals'
variables (no range filter here, matching the source). -/
def clauseMass (clauses : List (List ℤ)) (x : List ℚ) : List ℚ :=
  clauses.map (fun cl => (cl.map (fun lit => x.getD lit.natAbs 0)).sum)

/-- Mass-weighted polarity accumulators pos / neg (lines 159-168). -/
def posNegWeights (clauses : List (List ℤ)) (mass : List ℚ) (nvars : ℕ) :
    List ℚ × List ℚ :=
  (clauses.zip mass).foldl
    (fun pn p =>
      p.1.foldl
        (fun pn2 lit =>
          if 0 < lit then
            (pn2.1.set lit.natAbs (pn2.1.getD lit.natAbs 0 + p.2), pn2.2)
          else
            (pn2.1, pn2.2.set lit.natAbs (pn2.2.getD lit.natAbs 0 + p.2)))
        pn)
    (List.replicate (nvars + 1) 0, List.replicate (nvars + 1) 0)

/-- The 1e-12 smoothing constant of line 173. -/
def eps12 : ℚ := 1 / 10 ^ 12

/-- literal_scores_and_polarity (lines 146-177): var ->
(strength, preferred polarity), strength = x[v] * (pos[v] + neg[v] + 1e-12),
polarity positive iff pos[v] >= neg[v]. -/
def literal_scores_and_polarity (sqrtQ : ℚ → ℚ) (clauses : List (List ℤ))
    (nvars : ℕ) (iters : ℕ) : ℕ → ℚ × ℤ :=
  let cv := build_clause_vars clauses nvars
  let x := power_iter_var_scores sqrtQ cv nvars iters
  let mass := clauseMass clauses x
  let pn := posNegWeights clauses mass nvars
  fun v =>
    (x.getD v 0 * (pn.1.getD v 0 + pn.2.getD v 0 + eps12),
     if pn.2.getD v 0 ≤ pn.1.getD v 0 then 1 else -1)

/-- Python range(1, n + 1) as a list of ℕ. -/
def varRange (n : ℕ) : List ℕ :=
  (List.range n).map (fun i => i + 1)

/-- Descending stable sort of all variables 1..nvars by strength
(pick_units_rayleigh lines 184-185; list.sort with reverse=True is stable,
so equal strengths keep ascending variable order). -/
def rayleighOrder (strength : ℕ → ℚ) (nvars : ℕ) : List ℕ :=
  pySort (fun a b => decide (strength b < strength a)) (varRange nvars)

/-- Selection loop of pick_units_rayleigh (lines 187-196): walk the ranked
variables, skip any literal whose variable (either polarity) is in avoid,
append otherwise, stop once k literals are collected. -/
def choose_go (scorePol : ℕ → ℚ × ℤ) (avoid : Finset ℤ) (k : ℕ) :
    List ℕ → List ℤ → List ℤ
  | [], chosen => chosen
  | v :: rest, chosen =>
      let lit := (scorePol v).2 * (v : ℤ)
      if lit ∈ avoid ∨ -lit ∈ avoid then choose_go scorePol avoid k rest chosen
      else
        let chosen2 := chosen ++ [lit]
        if k ≤ chosen2.length then chosen2
        else choose_go scorePol avoid k rest chosen2

/-- pick_units_rayleigh (lines 179-196), at the level of the CNF value its
read_dimacs call returns. -/
def pick_units_rayleigh (sqrtQ : ℚ → ℚ) (nvars : ℕ) (clauses : List (List ℤ))
    (k iters : ℕ) (avoid : Finset ℤ) : List ℤ :=
  let scores := literal_scores_and_polarity sqrtQ clauses nvars iters
  choose_go scores avoid k (rayleighOrder (fun v => (scores v).1) nvars) []

/-- Selection iterations of the force-walk controller
(run_asr_v4_forcewalk.py lines 225-254): each iteration picks k units on the
current CNF, aborts when fewer than k came back, otherwise adds both
polarities of every chosen literal to the avoid set and appends the units to
the CNF before the next iteration.  Returns the per-iteration selections. -/
def forcewalk_selections (sqrtQ : ℚ → ℚ) (nvars : ℕ) (k iters : ℕ) :
    ℕ → List (List ℤ) → Finset ℤ → List (List ℤ)
  | 0, _, _ => []
  | steps + 1, clauses, avoid =>
      let new_units := pick_units_rayleigh sqrtQ nvars clauses k iters avoid
      if new_units.length < k then []
      else
        new_units ::
          forcewalk_selections sqrtQ nvars k iters steps
            (clauses ++ new_units.map (fun l => [l]))
            (new_units.foldl (fun s l => insert (-l) (insert l s)) avoid)

/-!
The random control (run_random_v1.py).  The two random draws of each loop
iteration (random.randint(1, nvars) and random.getrandbits(1)) are modelled
as an input stream draws : ℕ → ℤ × Bool, consumed one pair per iteration;
the Bool is true when the drawn bit is nonzero (negative polarity).
-/

/-- Fallback of pick_random_literals (run_random_v1.py lines 145-152): scan
variables 1..nvars in ascending order, taking unused ones (checking BOTH
polarities here) with positive polarity, stopping at want_k; may still
return fewer. -/
def random_fallback_go (want_k : ℕ) :
    List ℤ → List ℤ → Finset ℤ → List ℤ × Finset ℤ
  | [], acc, used => (acc, used)
  | v :: rest, acc, used =>
      if want_k ≤ acc.length then (acc, used)
      else if v ∉ used ∧ -v ∉ used then
        random_fallback_go want_k rest (acc ++ [v]) (insert v used)
      else random_fallback_go want_k rest acc used

/-- Main rejection loop of pick_random_literals (lines 142-161): at most
2000 draw iterations (the tries counter), each drawing (v, bit) and
accepting lit unless the EXACT literal is already used — the opposite
polarity is NOT checked here; then the ascending fallback. -/
def pick_random_go (draws : ℕ → ℤ × Bool) (nvars : ℤ) (want_k : ℕ) :
    ℕ → ℕ → List ℤ → Finset ℤ → List ℤ × Finset ℤ
  | 0, _, acc, used =>
      if want_k ≤ acc.length then (acc, used)
      else random_fallback_go want_k (varRangeZ nvars) acc used
  | fuel + 1, i, acc, used =>
      if want_k ≤ acc.length then (acc, used)
      else
        let d := draws i
        let lit := if d.2 then -d.1 else d.1
        if lit ∈ used then pick_random_go draws nvars want_k fuel (i + 1) acc used
        else pick_random_go draws nvars want_k fuel (i + 1) (acc ++ [lit])
          (insert lit used)

/-- pick_random_literals (run_random_v1.py lines 132-161): returns the new
literals and the updated used set (the Python function mutates the caller's
set in place). -/
def pick_random_literals (draws : ℕ → ℤ × Bool) (nvars : ℤ) (want_k : ℕ)
    (used : Finset ℤ) : List ℤ × Finset ℤ :=
  pick_random_go draws nvars want_k 2000 0 [] used

/-!
Solver-report parsing.  A report is a list of lines, each line a list of
characters.  Python str helpers are reimplemented below; Python int() /
float() are modelled on the plain decimal token forms the solver emits
(signed digit runs, optionally with one decimal point).
-/

abbrev PyStr := List Char

def isWs (c : Char) : Bool := c.isWhitespace

/-- Python str.strip(). -/
def pyStrip (s : PyStr) : PyStr :=
  ((s.dropWhile isWs).reverse.dropWhile isWs).reverse

/-- Python str.startswith(p). -/
def startsWithS (p s : PyStr) : Bool :=
  List.isPrefixOf p s

/-- Python substring containment (p in s). -/
def hasSub (p : PyStr) : PyStr → Bool
  | [] => List.isPrefixOf p []
  | c :: rest => List.isPrefixOf p (c :: rest) || hasSub p rest

/-- Python str.split(sep) for a single-character separator: empty pieces are
kept. -/
def splitOnChar (sep : Char) (s : PyStr) : List PyStr :=
  s.foldr
    (fun c acc =>
      if c = sep then [] :: acc
      else
        match acc with
        | [] => [[c]]
        | h :: t => (c :: h) :: t)
    [[]]

/-- Python str.split() with no argument: split on whitespace runs, dropping
empty pieces. -/
def pySplitWs (s : PyStr) : List PyStr :=
  (s.foldr
    (fun c acc =>
      if isWs c then [] :: acc
      else
        match acc with
        | [] => [[c]]
        | h :: t => (c :: h) :: t)
    [[]]).filter (fun t => !t.isEmpty)

/-- Python s.replace(single colon, single space). -/
def replaceColonSpace (s : PyStr) : PyStr :=
  s.map (fun c => if c = (':') then (' ') else c)

/-- Python str.lower(). -/
def pyLower (s : PyStr) : PyStr :=
  s.map Char.toLower

def digitsToNat (ds : PyStr) : ℕ :=
  ds.foldl (fun n c => n * 10 + (c.toNat - ('0').toNat)) 0

def allDigits (ds : PyStr) : Bool :=
  !ds.isEmpty && ds.all Char.isDigit

/-- Python int(tok) on a whitespace-free token: optional sign then a digit
run. -/
def pyInt? : PyStr → Option ℤ
  | ('-') :: ds => if allDigits ds then some (-(digitsToNat ds : ℤ)) else none
  | ('+') :: ds => if allDigits ds then some ((digitsToNat ds : ℤ)) else none
  | ds => if allDigits ds then some ((digitsToNat ds : ℤ)) else none

def pyUFloat? (s : PyStr) : Option ℚ :=
  match splitOnChar ('.') s with
  | [a] => if allDigits a then some ((digitsToNat a : ℚ)) else none
  | [a, b] =>
      if (allDigits a || a.isEmpty) && (allDigits b || b.isEmpty)
          && !(a.isEmpty && b.isEmpty) then
        some ((digitsToNat a : ℚ) + (digitsToNat b : ℚ) / 10 ^ b.length)
      else none
  | _ => none

/-- Python float(tok) on the plain decimal forms glucose emits. -/
def pyFloat? : PyStr → Option ℚ
  | ('-') :: rest => (pyUFloat? rest).map (fun q => -q)
  | ('+') :: rest => pyUFloat? rest
  | rest => pyUFloat? rest

def statusSat : String := "SAT"

def statusUnsat : String := "UNSAT"

def statusUnknown : String := "UNKNOWN"

def sSpace : PyStr := "s ".toList

def satStr : PyStr := "SATISFIABLE".toList

def unsatPrefixStr : PyStr := "UNSAT".toList

def unsatStr : PyStr := "UNSATISFIABLE".toList

def cConflicts : PyStr := "c conflicts".toList

def cCpuTime : PyStr := "c CPU time".toList

def cCpuTimeLower : PyStr := "c cpu time".toList

def conflictsWord : PyStr := "conflicts".toList

def sWord : PyStr := "s".toList

/-- Sentinel conflict count of the clean parsers (10**18, line 65). -/
def clean_sentinel_conflicts : ℤ := 10 ^ 18

/-- The scan of parse_glucose_log for the conflicts number (clean runner
lines 77-83): for every index i with parts[i] = conflicts and a following
token, try int(parts[i+1]); the last parsable match wins, failures leave the
current value. -/
def conflicts_scan : List PyStr → ℤ → ℤ
  | [], c => c
  | [_], c => c
  | a :: b :: rest, c =>
      conflicts_scan (b :: rest)
        (if a = conflictsWord then
          (match pyInt? b with
           | some n => n
           | none => c)
        else c)

/-- The CPU-time extraction of parse_glucose_log (clean runner lines 84-90):
float(parts[-2]) when the last token is s, else float(parts[-1]); any
IndexError / ValueError is swallowed by the bare except. -/
def cpu_update (parts : List PyStr) (cpu : ℚ) : ℚ :=
  match parts.getLast? with
  | none => cpu
  | some t =>
      if t = sWord then
        match (parts.get? (parts.length - 2)).bind pyFloat? with
        | some q => q
        | none => cpu
      else
        match pyFloat? t with
        | some q => q
        | none => cpu

/-- Per-line step of parse_glucose_log (run_asr_v4_rayleigh_clean.py lines
67-91): status from the s-line (SATISFIABLE without UNSAT → SAT, else
UNSATISFIABLE → UNSAT), conflicts and CPU time from their c-lines. -/
def parse_glucose_log_step (st : String × ℤ × ℚ) (line : PyStr) :
    String × ℤ × ℚ :=
  let s := pyStrip line
  (if startsWithS sSpace s then
      (if hasSub satStr s && !hasSub unsatPrefixStr s then statusSat
       else if hasSub unsatStr s then statusUnsat
       else st.1)
    else st.1,
   if startsWithS cConflicts s then
      conflicts_scan (pySplitWs (replaceColonSpace s)) st.2.1
    else st.2.1,
   if startsWithS cCpuTime s then
      cpu_update (pySplitWs (replaceColonSpace s)) st.2.2
    else st.2.2)

/-- parse_glucose_log of run_asr_v4_rayleigh_clean.py (lines 63-91):
initial state (UNKNOWN, 10**18, 0.0). -/
def parse_glucose_log_clean (lines : List PyStr) : String × ℤ × ℚ :=
  lines.foldl parse_glucose_log_step (statusUnknown, clean_sentinel_conflicts, 0)

/-- parse_glucose_log of run_asr_v4_forcewalk.py (lines 62-88), a
character-identical copy of the clean runner's parser. -/
def parse_glucose_log_fw (lines : List PyStr) : String × ℤ × ℚ :=
  lines.foldl parse_glucose_log_step (statusUnknown, clean_sentinel_conflicts, 0)

/-- Per-line step of parse_glucose_output (run_asr_v1.py lines 24-66, and a
character-identical copy in run_random_v1.py lines 25-63): status starts as
None (UNSATISFIABLE checked first); conflicts from the leading digit run
after the first colon; CPU time from the first token after the first
colon. -/
def parse_glucose_output_step (st : Option String × Option ℕ × Option ℚ)
    (line : PyStr) : Option String × Option ℕ × Option ℚ :=
  let s := pyStrip line
  (if startsWithS sSpace s then
      (if hasSub unsatStr s then some statusUnsat
       else if hasSub satStr s then some statusSat
       else st.1)
    else st.1,
   if startsWithS cConflicts s then
      (match splitOnChar (':') s with
       | _ :: second :: _ =>
           let num := (pyStrip second).takeWhile Char.isDigit
           if num.isEmpty then st.2.1 else some (digitsToNat num)
       | _ => st.2.1)
    else st.2.1,
   if startsWithS cCpuTime s then
      (match splitOnChar (':') s with
       | _ :: second :: _ =>
           (match (pySplitWs (pyStrip second)).head? with
            | some t =>
                (match pyFloat? t with
                 | some f => some f
                 | none => st.2.2)
            | none => st.2.2)
       | _ => st.2.2)
    else st.2.2)

/-- parse_glucose_output (run_asr_v1.py lines 24-66): all three fields start
as None and stay None when never parsed. -/
def parse_glucose_output (lines : List PyStr) :
    Option String × Option ℕ × Option ℚ :=
  lines.foldl parse_glucose_output_step (none, none, none)

/-- Per-line step of parse_glucose_log in run_asr_v4_rayleigh.py (lines
82-124, the numpy variant): same status logic as the clean parser, but the
conflicts / CPU labels are matched case-insensitively and the numbers are
the first token after the first colon. -/
def parse_glucose_log_np_step (st : String × Option ℤ × Option ℚ)
    (line : PyStr) : String × Option ℤ × Option ℚ :=
  let s := pyStrip line
  (if startsWithS sSpace s then
      (if hasSub satStr s && !hasSub unsatPrefixStr s then statusSat
       else if hasSub unsatStr s then statusUnsat
       else st.1)
    else st.1,
   if startsWithS cConflicts (pyLower s) then
      (match splitOnChar (':') s with
       | _ :: second :: _ =>
           (match (pySplitWs (pyStrip second)).head? with
            | some t =>
                (match pyInt? t with
                 | some n => some n
                 | none => st.2.1)
            | none => st.2.1)
       | _ => st.2.1)
    else st.2.1,
   if startsWithS cCpuTimeLower (pyLower s) then
      (match splitOnChar (':') s with
       | _ :: second :: _ =>
           (match (pySplitWs (pyStrip second)).head? with
            | some t =>
                (match pyFloat? t with
                 | some f => some f
                 | none => st.2.2)
            | none => st.2.2)
       | _ => st.2.2)
    else st.2.2)

/-- parse_glucose_log of run_asr_v4_rayleigh.py (lines 82-124): None
degrades to -1 conflicts and -1.0 seconds at the end. -/
def parse_glucose_log_np (lines : List PyStr) : String × ℤ × ℚ :=
  let r := lines.foldl parse_glucose_log_np_step (statusUnknown, none, none)
  (r.1, (r.2.1).getD (-1), (r.2.2).getD (-1))

/-- Stop test `conflicts == 0 and status in ("SAT","UNSAT")` shared by the
controllers (clean runner line 271, force-walk line 250, random runner line
213). -/
def stop_zero_conflicts (r : String × ℤ × ℚ) : Bool :=
  decide (r.2.1 = 0 ∧ (r.1 = statusSat ∨ r.1 = statusUnsat))

/-!
Claim C7: empty clause lines.  The clean read_dimacs preserves a bare-0 line
as an explicit empty clause; the v0b parse_dimacs discards it.
-/

def c7_lines : List DLine :=
  [headerLine 1 2, [Tok.int 0], [Tok.int 1, Tok.int 0]]

/-- C7 counterexample: on the file p cnf 1 2 / 0 / 1 0, the v0b parse_dimacs
(cited by the claim) returns the clause list [[1]] — the zero-literal clause
line has been discarded, not preserved; the clean read_dimacs on the same
file keeps it. -/
theorem c7_counterexample :
    (parse_dimacs c7_lines).mapVal (fun r => r.2.1) = PyResult.ok [[1]] ∧
    read_dimacs c7_lines = PyResult.ok ⟨1, [[], [1]], []⟩ := by
  constructor
  · rfl
  · rfl

/-- C7 (amended): a clause line that reduces to zero literals after
stripping the trailing zero terminator is preserved as an explicit empty
clause by read_dimacs of the v4 runners, but is DISCARDED (counts and
clause list unchanged) by parse_dimacs of pick_literals_asr_v0b.py (and the
same tokenizer in the frequency baseline). -/
theorem c7_amended (nv : ℤ) (cls : List (List ℤ)) (cms : List DLine)
    (num_vars : Option ℤ) (pos neg : ℤ → ℕ) (rest : List DLine) :
    read_dimacs_go nv cls cms ([Tok.int 0] :: rest) =
      read_dimacs_go nv (cls ++ [[]]) cms rest ∧
    parse_dimacs_go num_vars cls pos neg ([Tok.int 0] :: rest) =
      parse_dimacs_go num_vars cls pos neg rest := by
  constructor
  · rfl
  · rfl

/-!
Claim C1: avoidance across iterations.  Helper lemmas about the Rayleigh
selection loop, the force-walk avoid set, and the random selector.
-/

theorem choose_go_mem (sp : ℕ → ℚ × ℤ) (avoid : Finset ℤ) (k : ℕ) :
    ∀ (order : List ℕ) (acc : List ℤ) (lit : ℤ),
      lit ∈ choose_go sp avoid k order acc →
      lit ∈ acc ∨ (lit ∉ avoid ∧ -lit ∉ avoid ∧ ∃ v ∈ order, lit = (sp v).2 * (v : ℤ)) := by
  intro order
  induction order with
  | nil => intro acc lit h; exact Or.inl h
  | cons v rest ih =>
      intro acc lit h
      simp only [choose_go] at h
      by_cases hav : (sp v).2 * (v : ℤ) ∈ avoid ∨ -((sp v).2 * (v : ℤ)) ∈ avoid
      · rw [if_pos hav] at h
        rcases ih acc lit h with h1 | ⟨h1, h2, w, hw, he⟩
        · exact Or.inl h1
        · exact Or.inr ⟨h1, h2, w, List.mem_cons_of_mem v hw, he⟩
      · rw [if_neg hav] at h
        push_neg at hav
        by_cases hk : k ≤ (acc ++ [(sp v).2 * (v : ℤ)]).length
        · rw [if_pos hk] at h
          rcases List.mem_append.mp h with h1 | h1
          · exact Or.inl h1
          · have : lit = (sp v).2 * (v : ℤ) := List.mem_singleton.mp h1
            exact Or.inr ⟨this ▸ hav.1, this ▸ hav.2, v, List.mem_cons_self v rest, this⟩
        · rw [if_neg hk] at h
          rcases ih _ lit h with h1 | ⟨h1, h2, w, hw, he⟩
          · rcases List.mem_append.mp h1 with h2 | h2
            · exact Or.inl h2
            · have : lit = (sp v).2 * (v : ℤ) := List.mem_singleton.mp h2
              exact Or.inr ⟨this ▸ hav.1, this ▸ hav.2, v, List.mem_cons_self v rest, this⟩
          · exact Or.inr ⟨h1, h2, w, List.mem_cons_of_mem v hw, he⟩

theorem choose_go_pairwise (sp : ℕ → ℚ × ℤ) (avoid : Finset ℤ) (k : ℕ)
    (hpol : ∀ v, (sp v).2 = 1 ∨ (sp v).2 = -1) :
    ∀ (order : List ℕ) (acc : List ℤ),
      order.Nodup →
      (∀ l ∈ acc, ∀ v ∈ order, l.natAbs ≠ v) →
      acc.Pairwise (fun a b => a.natAbs ≠ b.natAbs) →
      (choose_go sp avoid k order acc).Pairwise (fun a b => a.natAbs ≠ b.natAbs) := by
  intro order
  induction order with
  | nil => intro acc _ _ hp; exact hp
  | cons v rest ih =>
      intro acc hnd hacc hp
      have hndr : rest.Nodup := (List.nodup_cons.mp hnd).2
      have hvr : v ∉ rest := (List.nodup_cons.mp hnd).1
      have habs : ((sp v).2 * (v : ℤ)).natAbs = v := by
        rcases hpol v with h | h <;> simp [h]
      simp only [choose_go]
      by_cases hav : (sp v).2 * (v : ℤ) ∈ avoid ∨ -((sp v).2 * (v : ℤ)) ∈ avoid
      · rw [if_pos hav]
        exact ih acc hndr
          (fun l hl w hw => hacc l hl w (List.mem_cons_of_mem v hw)) hp
      · rw [if_neg hav]
        have hp2 : (acc ++ [(sp v).2 * (v : ℤ)]).Pairwise
            (fun a b => a.natAbs ≠ b.natAbs) := by
          rw [List.pairwise_append]
          refine ⟨hp, List.pairwise_singleton _ _, ?_⟩
          intro a ha b hb
          rw [List.mem_singleton.mp hb, habs]
          exact hacc a ha v (List.mem_cons_self v rest)
        by_cases hk : k ≤ (acc ++ [(sp v).2 * (v : ℤ)]).length
        · rw [if_pos hk]; exact hp2
        · rw [if_neg hk]
          refine ih _ hndr ?_ hp2
          intro l hl w hw
          rcases List.mem_append.mp hl with h1 | h1
          · exact hacc l h1 w (List.mem_cons_of_mem v hw)
          · rw [List.mem_singleton.mp h1, habs]
            intro he
            exact hvr (he ▸ hw)

theorem varRange_nodup (n : ℕ) : (varRange n).Nodup := by
  unfold varRange
  exact (List.nodup_range n).map (fun a b h => by omega)

theorem rayleighOrder_nodup (strength : ℕ → ℚ) (n : ℕ) :
    (rayleighOrder strength n).Nodup :=
  ((pySort_perm _ (varRange n)).nodup_iff).mpr (varRange_nodup n)

theorem ite_pm (a b : ℚ) :
    (if b ≤ a then (1 : ℤ) else -1) = 1 ∨
    (if b ≤ a then (1 : ℤ) else -1) = -1 := by
  by_cases h : b ≤ a
  · left; rw [if_pos h]
  · right; rw [if_neg h]

theorem lsp_pol (sqrtQ : ℚ → ℚ) (clauses : List (List ℤ)) (nvars iters : ℕ) :
    ∀ v, (literal_scores_and_polarity sqrtQ clauses nvars iters v).2 = 1 ∨
      (literal_scores_and_polarity sqrtQ clauses nvars iters v).2 = -1 := by
  intro v
  exact ite_pm _ _

theorem pick_units_rayleigh_avoids (sqrtQ : ℚ → ℚ) (nvars : ℕ)
    (clauses : List (List ℤ)) (k iters : ℕ) (avoid : Finset ℤ) :
    ∀ lit ∈ pick_units_rayleigh sqrtQ nvars clauses k iters avoid,
      lit ∉ avoid ∧ -lit ∉ avoid := by
  intro lit h
  unfold pick_units_rayleigh at h
  rcases choose_go_mem _ avoid k _ [] lit h with h1 | ⟨h1, h2, _⟩
  · cases h1
  · exact ⟨h1, h2⟩

theorem pick_units_rayleigh_pairwise (sqrtQ : ℚ → ℚ) (nvars : ℕ)
    (clauses : List (List ℤ)) (k iters : ℕ) (avoid : Finset ℤ) :
    (pick_units_rayleigh sqrtQ nvars clauses k iters avoid).Pairwise
      (fun a b => a.natAbs ≠ b.natAbs) := by
  unfold pick_units_rayleigh
  exact choose_go_pairwise _ avoid k (lsp_pol sqrtQ clauses nvars iters) _ []
    (rayleighOrder_nodup _ nvars) (fun l hl => absurd hl (List.not_mem_nil l))
    List.Pairwise.nil

theorem avoid_fold_subset (units : List ℤ) :
    ∀ s : Finset ℤ, s ⊆ units.foldl (fun t l => insert (-l) (insert l t)) s := by
  induction units with
  | nil => intro s; exact Finset.Subset.refl s
  | cons u rest ih =>
      intro s
      refine Finset.Subset.trans ?_ (ih (insert (-u) (insert u s)))
      exact Finset.Subset.trans (Finset.subset_insert u s)
        (Finset.subset_insert (-u) _)

theorem avoid_fold_mem (units : List ℤ) :
    ∀ (s : Finset ℤ) (l : ℤ), l ∈ units →
      l ∈ units.foldl (fun t x => insert (-x) (insert x t)) s ∧
      -l ∈ units.foldl (fun t x => insert (-x) (insert x t)) s := by
  induction units with
  | nil => intro s l h; cases h
  | cons u rest ih =>
      intro s l h
      rcases List.mem_cons.mp h with h1 | h1
      · subst h1
        constructor
        · exact avoid_fold_subset rest _
            (Finset.mem_insert_of_mem (Finset.mem_insert_self l _))
        · exact avoid_fold_subset rest _ (Finset.mem_insert_self (-l) _)
      · exact ih _ l h1

theorem forcewalk_join_avoids (sqrtQ : ℚ → ℚ) (nvars k iters : ℕ) :
    ∀ (steps : ℕ) (clauses : List (List ℤ)) (avoid : Finset ℤ) (lit : ℤ),
      lit ∈ (forcewalk_selections sqrtQ nvars k iters steps clauses avoid).flatten →
      lit ∉ avoid ∧ -lit ∉ avoid := by
  intro steps
  induction steps with
  | zero => intro clauses avoid lit h; simp [forcewalk_selections] at h
  | succ n ih =>
      intro clauses avoid lit h
      simp only [forcewalk_selections] at h
      by_cases hs : (pick_units_rayleigh sqrtQ nvars clauses k iters avoid).length < k
      · rw [if_pos hs] at h
        simp at h
      · rw [if_neg hs] at h
        rw [List.flatten_cons, List.mem_append] at h
        rcases h with h1 | h1
        · exact pick_units_rayleigh_avoids sqrtQ nvars clauses k iters avoid lit h1
        · have h2 := ih _ _ lit h1
          constructor
          · intro hc
            exact h2.1 (avoid_fold_subset _ avoid hc)
          · intro hc
            exact h2.2 (avoid_fold_subset _ avoid hc)

theorem forcewalk_selections_pairwise (sqrtQ : ℚ → ℚ) (nvars k iters : ℕ) :
    ∀ (steps : ℕ) (clauses : List (List ℤ)) (avoid : Finset ℤ),
      (forcewalk_selections sqrtQ nvars k iters steps clauses avoid).flatten.Pairwise
        (fun a b => a.natAbs ≠ b.natAbs) := by
  intro steps
  induction steps with
  | zero => intro clauses avoid; simp [forcewalk_selections]
  | succ n ih =>
      intro clauses avoid
      simp only [forcewalk_selections]
      by_cases hs : (pick_units_rayleigh sqrtQ nvars clauses k iters avoid).length < k
      · rw [if_pos hs]; simp
      · rw [if_neg hs]
        rw [List.flatten_cons, List.pairwise_append]
        refine ⟨pick_units_rayleigh_pairwise sqrtQ nvars clauses k iters avoid,
          ih _ _, ?_⟩
        intro a ha b hb hab
        have hb2 := forcewalk_join_avoids sqrtQ nvars k iters n _ _ b hb
        have ha2 := avoid_fold_mem _ avoid a ha
        rcases Int.natAbs_eq_natAbs_iff.mp hab with he | he
        · exact hb2.1 (he ▸ ha2.1)
        · have : b = -a := by omega
          exact hb2.1 (this ▸ ha2.2)

theorem random_fallback_go_spec (want_k : ℕ) :
    ∀ (vs : List ℤ) (acc : List ℤ) (used : Finset ℤ),
      (∀ l ∈ (random_fallback_go want_k vs acc used).1, l ∈ acc ∨ l ∉ used) ∧
      used ⊆ (random_fallback_go want_k vs acc used).2 ∧
      (∀ l ∈ (random_fallback_go want_k vs acc used).1,
        l ∈ acc ∨ l ∈ (random_fallback_go want_k vs acc used).2) := by
  intro vs
  induction vs with
  | nil =>
      intro acc used
      exact ⟨fun l hl => Or.inl hl, Finset.Subset.refl used,
        fun l hl => Or.inl hl⟩
  | cons v rest ih =>
      intro acc used
      simp only [random_fallback_go]
      by_cases hk : want_k ≤ acc.length
      · rw [if_pos hk]
        exact ⟨fun l hl => Or.inl hl, Finset.Subset.refl used,
          fun l hl => Or.inl hl⟩
      · rw [if_neg hk]
        by_cases hu : v ∉ used ∧ -v ∉ used
        · rw [if_pos hu]
          rcases ih (acc ++ [v]) (insert v used) with ⟨h1, h2, h3⟩
          refine ⟨?_, ?_, ?_⟩
          · intro l hl
            rcases h1 l hl with h4 | h4
            · rcases List.mem_append.mp h4 with h5 | h5
              · exact Or.inl h5
              · right
                rw [List.mem_singleton.mp h5]
                exact hu.1
            · right
              intro hc
              exact h4 (Finset.mem_insert_of_mem hc)
          · exact Finset.Subset.trans (Finset.subset_insert v used) h2
          · intro l hl
            rcases h3 l hl with h4 | h4
            · rcases List.mem_append.mp h4 with h5 | h5
              · exact Or.inl h5
              · right
                rw [List.mem_singleton.mp h5]
                exact h2 (Finset.mem_insert_self v used)
            · exact Or.inr h4
        · rw [if_neg hu]
          exact ih acc used

theorem pick_random_go_spec (draws : ℕ → ℤ × Bool) (nv : ℤ) (want_k : ℕ) :
    ∀ (fuel i : ℕ) (acc : List ℤ) (used : Finset ℤ),
      (∀ l ∈ (pick_random_go draws nv want_k fuel i acc used).1,
        l ∈ acc ∨ l ∉ used) ∧
      used ⊆ (pick_random_go draws nv want_k fuel i acc used).2 ∧
      (∀ l ∈ (pick_random_go draws nv want_k fuel i acc used).1,
        l ∈ acc ∨ l ∈ (pick_random_go draws nv want_k fuel i acc used).2) := by
  intro fuel
  induction fuel with
  | zero =>
      intro i acc used
      simp only [pick_random_go]
      by_cases hk : want_k ≤ acc.length
      · rw [if_pos hk]
        exact ⟨fun l hl => Or.inl hl, Finset.Subset.refl used,
          fun l hl => Or.inl hl⟩
      · rw [if_neg hk]
        exact random_fallback_go_spec want_k (varRangeZ nv) acc used
  | succ n ih =>
      intro i acc used
      simp only [pick_random_go]
      by_cases hk : want_k ≤ acc.length
      · rw [if_pos hk]
        exact ⟨fun l hl => Or.inl hl, Finset.Subset.refl used,
          fun l hl => Or.inl hl⟩
      · rw [if_neg hk]
        by_cases hu : (if (draws i).2 then -(draws i).1 else (draws i).1) ∈ used
        · rw [if_pos hu]
          exact ih (i + 1) acc used
        · rw [if_neg hu]
          rcases ih (i + 1)
            (acc ++ [if (draws i).2 then -(draws i).1 else (draws i).1])
            (insert (if (draws i).2 then -(draws i).1 else (draws i).1) used)
            with ⟨h1, h2, h3⟩
          refine ⟨?_, ?_, ?_⟩
          · intro l hl
            rcases h1 l hl with h4 | h4
            · rcases List.mem_append.mp h4 with h5 | h5
              · exact Or.inl h5
              · right
                rw [List.mem_singleton.mp h5]
                exact hu
            · right
              intro hc
              exact h4 (Finset.mem_insert_of_mem hc)
          · exact Finset.Subset.trans (Finset.subset_insert _ used) h2
          · intro l hl
            rcases h3 l hl with h4 | h4
            · rcases List.mem_append.mp h4 with h5 | h5
              · exact Or.inl h5
              · right
                rw [List.mem_singleton.mp h5]
                exact h2 (Finset.mem_insert_self _ used)
            · exact Or.inr h4

def c1_draw_neg : ℕ → ℤ × Bool := fun _ => (1, true)

def c1_draw_pos : ℕ → ℤ × Bool := fun _ => (1, false)

/-- C1 counterexample: a concrete run of the random control with nvars = 1,
k_step = 1.  The first selection call draws bit 1 and commits literal -1;
the second call, with the used set threaded through exactly as in the
controller loop, draws bit 0 and returns literal 1 — the same variable in
the opposite polarity, so a later selection call does re-propose a variable
already committed by an earlier one. -/
theorem c1_counterexample :
    (pick_random_literals c1_draw_neg 1 1 ∅).1 = [-1] ∧
    (pick_random_literals c1_draw_pos 1 1
      (pick_random_literals c1_draw_neg 1 1 ∅).2).1 = [1] ∧
    ((-1 : ℤ)).natAbs = (1 : ℤ).natAbs := by
  refine ⟨?_, ?_, rfl⟩
  · rfl
  · rfl

/-- C1 (amended): the force-walk Rayleigh controller satisfies the claimed
avoidance — across all iterations of one run no two selected literals share
a variable, in either polarity.  The random control guarantees only that an
EXACT literal is never re-selected (every returned literal was absent from
the incoming used set, which the controller threads through and the call
extends with its choices); its rejection path does not consult the opposite
polarity, which is what the counterexample exploits. -/
theorem c1_amended (sqrtQ : ℚ → ℚ) (nvars k iters steps : ℕ)
    (clauses : List (List ℤ)) (draws : ℕ → ℤ × Bool) (nv : ℤ)
    (want_k : ℕ) (used : Finset ℤ) :
    (forcewalk_selections sqrtQ nvars k iters steps clauses ∅).flatten.Pairwise
      (fun a b => a.natAbs ≠ b.natAbs) ∧
    (∀ lit ∈ (pick_random_literals draws nv want_k used).1, lit ∉ used) ∧
    used ⊆ (pick_random_literals draws nv want_k used).2 ∧
    (∀ lit ∈ (pick_random_literals draws nv want_k used).1,
      lit ∈ (pick_random_literals draws nv want_k used).2) := by
  rcases pick_random_go_spec draws nv want_k 2000 0 [] used with ⟨h1, h2, h3⟩
  refine ⟨forcewalk_selections_pairwise sqrtQ nvars k iters steps clauses ∅,
    ?_, h2, ?_⟩
  · intro lit hl
    rcases h1 lit hl with h4 | h4
    · cases h4
    · exact h4
  · intro lit hl
    rcases h3 lit hl with h4 | h4
    · cases h4
    · exact h4

/-!
Claim C4: exactly-K-or-error.
-/

theorem random_fallback_go_len (want_k : ℕ) :
    ∀ (vs : List ℤ) (acc : List ℤ) (used : Finset ℤ),
      acc.length ≤ want_k →
      (random_fallback_go want_k vs acc used).1.length ≤ want_k := by
  intro vs
  induction vs with
  | nil => intro acc used h; exact h
  | cons v rest ih =>
      intro acc used h
      simp only [random_fallback_go]
      by_cases hk : want_k ≤ acc.length
      · rw [if_pos hk]; exact h
      · rw [if_neg hk]
        by_cases hu : v ∉ used ∧ -v ∉ used
        · rw [if_pos hu]
          exact ih (acc ++ [v]) (insert v used) (by simp; omega)
        · rw [if_neg hu]
          exact ih acc used h

theorem pick_random_go_len (draws : ℕ → ℤ × Bool) (nv : ℤ) (want_k : ℕ) :
    ∀ (fuel i : ℕ) (acc : List ℤ) (used : Finset ℤ),
      acc.length ≤ want_k →
      (pick_random_go draws nv want_k fuel i acc used).1.length ≤ want_k := by
  intro fuel
  induction fuel with
  | zero =>
      intro i acc used h
      simp only [pick_random_go]
      by_cases hk : want_k ≤ acc.length
      · rw [if_pos hk]; exact h
      · rw [if_neg hk]
        exact random_fallback_go_len want_k (varRangeZ nv) acc used h
  | succ n ih =>
      intro i acc used h
      simp only [pick_random_go]
      by_cases hk : want_k ≤ acc.length
      · rw [if_pos hk]; exact h
      · rw [if_neg hk]
        by_cases hu : (if (draws i).2 then -(draws i).1 else (draws i).1) ∈ used
        · rw [if_pos hu]
          exact ih (i + 1) acc used h
        · rw [if_neg hu]
          exact ih (i + 1) _ _ (by simp; omega)

def c4_score : ℤ → ℚ := fun v => if v = 1 then 1 else 0

def c4_pos : ℤ → ℕ := fun v => if v = 1 then 1 else 0

def c4_neg : ℤ → ℕ := fun _ => 0

def c4_draws : ℕ → ℤ × Bool := fun _ => (1, false)

/-- C4 counterexample: on a 1-variable CNF whose only positive-score
variable is 1 (score 1, one positive occurrence), pick_top_k_literals asked
for K = 2 literals returns ok [1] — a successful return of fewer than K
literals, with no error and no non-zero exit. -/
theorem c4_counterexample :
    pick_top_k_literals 1 c4_score c4_pos c4_neg 2 = PyResult.ok [1] ∧
    ([1] : List ℤ).length ≠ 2 := by
  constructor
  · decide
  · decide

/-- C4 (amended): the spectral- and frequency-policy FUNCTIONS error only
when there are NO candidates; with at least one candidate they successfully
return min(K, number of candidates) literals, silently short when fewer
than K candidates exist.  The exactly-K-or-die guarantee lives one level
up, in the run_asr_v1.py pick_literals wrapper, which dies exactly when
fewer than k literals came back and otherwise returns exactly k.  The
random policy never returns more than want_k literals but may return
fewer (after fallback exhaustion) with no error. -/
theorem c4_amended (num_vars : ℤ) (var_score : ℤ → ℚ) (pos neg : ℤ → ℕ)
    (k kf kv : ℕ) (out : List Tok) (draws : ℕ → ℤ × Bool) (nv : ℤ)
    (want_k : ℕ) (used : Finset ℤ) :
    (v0b_scored num_vars var_score = [] →
      pick_top_k_literals num_vars var_score pos neg k =
        PyResult.err errNoPositive) ∧
    (v0b_scored num_vars var_score ≠ [] →
      ∃ lits, pick_top_k_literals num_vars var_score pos neg k =
          PyResult.ok lits ∧
        lits.length = min k (v0b_scored num_vars var_score).length) ∧
    (freq_counts num_vars pos neg = [] →
      pick_literals_freq num_vars pos neg kf = PyResult.err errNoLiterals) ∧
    (freq_counts num_vars pos neg ≠ [] →
      ∃ lits, pick_literals_freq num_vars pos neg kf = PyResult.ok lits ∧
        lits.length = min kf (freq_counts num_vars pos neg).length) ∧
    ((out.filterMap tokInt?).length < kv →
      pick_literals_v1 out kv = PyResult.err errTooFewLiterals) ∧
    (kv ≤ (out.filterMap tokInt?).length →
      ∃ lits, pick_literals_v1 out kv = PyResult.ok lits ∧ lits.length = kv) ∧
    (pick_random_literals draws nv want_k used).1.length ≤ want_k := by
  refine ⟨?_, ?_, ?_, ?_, ?_, ?_, ?_⟩
  · intro h
    simp only [pick_top_k_literals, List.isEmpty_iff, h, if_pos]
  · intro h
    refine ⟨((pySort v0bLt (v0b_scored num_vars var_score)).take k).map
      (fun sv => if neg sv.2 ≤ pos sv.2 then sv.2 else -sv.2), ?_, ?_⟩
    · simp only [pick_top_k_literals]
      rw [if_neg (by simpa [List.isEmpty_iff] using h)]
    · rw [List.length_map, List.length_take, pySort_length]
  · intro h
    simp only [pick_literals_freq, List.isEmpty_iff, h, if_pos]
  · intro h
    refine ⟨((pySort freqLt (freq_counts num_vars pos neg)).take kf).map
      (fun tv => if neg tv.2 ≤ pos tv.2 then tv.2 else -tv.2), ?_, ?_⟩
    · simp only [pick_literals_freq]
      rw [if_neg (by simpa [List.isEmpty_iff] using h)]
    · rw [List.length_map, List.length_take, pySort_length]
  · intro h
    simp only [pick_literals_v1]
    rw [if_pos h]
  · intro h
    refine ⟨(out.filterMap tokInt?).take kv, ?_, ?_⟩
    · simp only [pick_literals_v1]
      rw [if_neg (by omega)]
    · rw [List.length_take]
      omega
  · exact pick_random_go_len draws nv want_k 2000 0 [] used (by simp)

/-- C4 witness: the amended theorem applied at the counterexample CNF with
K = 1 (one candidate: returns exactly min 1 1 = 1 literal) and at a v1
wrapper call that must die (one parsed literal, k = 2). -/
theorem c4_witness :
    (∃ lits, pick_top_k_literals 1 c4_score c4_pos c4_neg 1 =
        PyResult.ok lits ∧
      lits.length = min 1 (v0b_scored 1 c4_score).length) ∧
    pick_literals_v1 [Tok.int 3] 2 = PyResult.err errTooFewLiterals :=
  ⟨(c4_amended 1 c4_score c4_pos c4_neg 1 1 2 [Tok.int 3] c4_draws 1 1
      ∅).2.1 (by decide),
   (c4_amended 1 c4_score c4_pos c4_neg 1 1 2 [Tok.int 3] c4_draws 1 1
      ∅).2.2.2.2.1 (by decide)⟩

/-!
Claim C9: equal-score tie-break by ascending variable id, in all three
ranking selectors.
-/

theorem range_pair_sublist : ∀ (m i j : ℕ), i < j → j < m →
    [i, j].Sublist (List.range m) := by
  intro m
  induction m with
  | zero => intro i j h1 h2; omega
  | succ n ih =>
      intro i j h1 h2
      rw [List.range_succ]
      by_cases hj : j < n
      · exact (ih i j h1 hj).trans (List.sublist_append_left _ _)
      · have hjn : j = n := by omega
        have hi : [i].Sublist (List.range n) :=
          List.singleton_sublist.mpr (List.mem_range.mpr (by omega))
        have hres := hi.append (List.Sublist.refl [n])
        rw [hjn]
        exact hres

theorem varRange_pair_sublist (n v1 v2 : ℕ) (h1 : 1 ≤ v1) (h2 : v1 < v2)
    (h3 : v2 ≤ n) : [v1, v2].Sublist (varRange n) := by
  have hs := range_pair_sublist n (v1 - 1) (v2 - 1) (by omega) (by omega)
  have hmap := hs.map (fun i => i + 1)
  have he : [v1 - 1, v2 - 1].map (fun i => i + 1) = [v1, v2] := by
    simp only [List.map_cons, List.map_nil]
    have e1 : v1 - 1 + 1 = v1 := by omega
    have e2 : v2 - 1 + 1 = v2 := by omega
    rw [e1, e2]
  rw [he] at hmap
  exact hmap

theorem varRangeZ_pair_sublist (n w1 w2 : ℤ) (h1 : 1 ≤ w1) (h2 : w1 < w2)
    (h3 : w2 ≤ n) : [w1, w2].Sublist (varRangeZ n) := by
  have hs := range_pair_sublist n.toNat (w1 - 1).toNat (w2 - 1).toNat
    (by omega) (by omega)
  have hmap := List.Sublist.map (fun i : ℕ => (i : ℤ) + 1) hs
  have he : [(w1 - 1).toNat, (w2 - 1).toNat].map (fun i : ℕ => (i : ℤ) + 1) =
      [w1, w2] := by
    simp only [List.map_cons, List.map_nil]
    have e1 : ((w1 - 1).toNat : ℤ) + 1 = w1 := by omega
    have e2 : ((w2 - 1).toNat : ℤ) + 1 = w2 := by omega
    rw [e1, e2]
  rw [he] at hmap
  unfold varRangeZ
  exact hmap

/-- C9: in all three ranking-based selectors, two variables with exactly
equal scores are ranked with the smaller id first: the stable descending
sort of pick_units_rayleigh keeps the ascending-id input order on ties, and
the (-score, id) sort keys of pick_top_k_literals and the frequency
baseline order ties by ascending id. -/
theorem c9_tiebreak (strength : ℕ → ℚ) (n : ℕ) (v1 v2 : ℕ)
    (var_score : ℤ → ℚ) (num_vars : ℤ) (w1 w2 : ℤ) (s : ℚ)
    (pos neg : ℤ → ℕ) (t : ℕ) :
    (1 ≤ v1 → v1 < v2 → v2 ≤ n → strength v1 = strength v2 →
      [v1, v2].Sublist (rayleighOrder strength n)) ∧
    (1 ≤ w1 → w1 < w2 → w2 ≤ num_vars →
      var_score w1 = s → var_score w2 = s → 0 < s →
      [(s, w1), (s, w2)].Sublist
        (pySort v0bLt (v0b_scored num_vars var_score))) ∧
    (1 ≤ w1 → w1 < w2 → w2 ≤ num_vars →
      pos w1 + neg w1 = t → pos w2 + neg w2 = t → 0 < t →
      [(t, w1), (t, w2)].Sublist
        (pySort freqLt (freq_counts num_vars pos neg))) := by
  refine ⟨?_, ?_, ?_⟩
  · intro h1 h2 h3 heq
    apply pySort_pair_stable _ v1 v2 ?_ _ (varRange_pair_sublist n v1 v2 h1 h2 h3)
    rw [heq]
    exact decide_eq_false (lt_irrefl _)
  · intro h1 h2 h3 hs1 hs2 h0
    apply pySort_pair_stable _ _ _ ?_ _ ?_
    · unfold v0bLt
      exact decide_eq_false (by
        rintro (hlt | ⟨-, hlt⟩)
        · exact lt_irrefl s hlt
        · exact absurd h2 (not_lt.mpr (le_of_lt hlt)))
    · have hsub := (varRangeZ_pair_sublist num_vars w1 w2 h1 h2 h3).filterMap
        (fun v => if 0 < var_score v then some (var_score v, v) else none)
      have he : [w1, w2].filterMap
          (fun v => if 0 < var_score v then some (var_score v, v) else none) =
          [(s, w1), (s, w2)] := by
        simp [List.filterMap_cons, hs1, hs2, h0]
      rw [he] at hsub
      exact hsub
  · intro h1 h2 h3 ht1 ht2 h0
    apply pySort_pair_stable _ _ _ ?_ _ ?_
    · unfold freqLt
      exact decide_eq_false (by
        rintro (hlt | ⟨-, hlt⟩)
        · exact lt_irrefl t hlt
        · exact absurd h2 (not_lt.mpr (le_of_lt hlt)))
    · have hsub := (varRangeZ_pair_sublist num_vars w1 w2 h1 h2 h3).filterMap
        (fun v => if 0 < pos v + neg v then some (pos v + neg v, v) else none)
      have he : [w1, w2].filterMap
          (fun v => if 0 < pos v + neg v then some (pos v + neg v, v) else none) =
          [(t, w1), (t, w2)] := by
        rw [List.filterMap_cons, List.filterMap_cons, List.filterMap_nil,
          ht1, ht2]
        simp [h0]
      rw [he] at hsub
      exact hsub

def c9_score : ℤ → ℚ := fun _ => 1

def c9_pos : ℤ → ℕ := fun _ => 1

def c9_neg : ℤ → ℕ := fun _ => 0

/-- C9 witness: at two tied variables 1 < 2 (constant scores and counts),
each selector ranks 1 before 2. -/
theorem c9_tiebreak_witness :
    [1, 2].Sublist (rayleighOrder (fun _ => 0) 2) ∧
    [((1 : ℚ), (1 : ℤ)), (1, 2)].Sublist (pySort v0bLt (v0b_scored 2 c9_score)) ∧
    [((1 : ℕ), (1 : ℤ)), (1, 2)].Sublist (pySort freqLt (freq_counts 2 c9_pos c9_neg)) :=
  ⟨(c9_tiebreak (fun _ => 0) 2 1 2 c9_score 2 1 2 1 c9_pos c9_neg 1).1
      (by decide) (by decide) (by decide) rfl,
   (c9_tiebreak (fun _ => 0) 2 1 2 c9_score 2 1 2 1 c9_pos c9_neg 1).2.1
      (by decide) (by decide) (by decide) rfl rfl (by decide),
   (c9_tiebreak (fun _ => 0) 2 1 2 c9_score 2 1 2 1 c9_pos c9_neg 1).2.2
      (by decide) (by decide) (by decide) rfl rfl (by decide)⟩

/-!
Claim C5: unreferenced variables in the clean scorer and selector.
-/

theorem getD_replicate0 : ∀ (n v : ℕ), (List.replicate n (0 : ℚ)).getD v 0 = 0 := by
  intro n
  induction n with
  | zero => intro v; simp
  | succ m ih =>
      intro v
      cases v with
      | zero => simp [List.replicate]
      | succ w =>
          rw [List.replicate, List.getD_cons_succ]
          exact ih w

theorem getD_set_ne (a : List ℚ) (u v : ℕ) (q : ℚ) (h : u ≠ v) :
    (a.set u q).getD v 0 = a.getD v 0 := by
  rw [List.getD_eq_getElem?_getD, List.getD_eq_getElem?_getD,
    List.getElem?_set_ne h]

theorem accumClause_getD_ne (vs : List ℕ) (val : ℚ) (v : ℕ) (hv : v ∉ vs) :
    ∀ acc : List ℚ, (accumClause acc vs val).getD v 0 = acc.getD v 0 := by
  induction vs with
  | nil => intro acc; rfl
  | cons u rest ih =>
      intro acc
      have hne : u ≠ v := fun he => hv (he ▸ List.mem_cons_self u rest)
      have hvr : v ∉ rest := fun hr => hv (List.mem_cons_of_mem u hr)
      simp only [accumClause, List.foldl_cons]
      rw [show (List.foldl (fun a w => a.set w (a.getD w 0 + val)) 
        (acc.set u (acc.getD u 0 + val)) rest) =
        accumClause (acc.set u (acc.getD u 0 + val)) rest val from rfl]
      rw [ih hvr, getD_set_ne _ _ _ _ hne]

theorem newX2_getD_unref (cv : List (List ℕ)) (y : List ℚ) (nvars v : ℕ)
    (hv : ∀ vs ∈ cv, v ∉ vs) : (newX2 cv y nvars).getD v 0 = 0 := by
  unfold newX2
  have hgen : ∀ (ps : List (List ℕ × ℚ)) (acc : List ℚ),
      (∀ p ∈ ps, v ∉ p.1) →
      (ps.foldl (fun a p => accumClause a p.1 p.2) acc).getD v 0 =
        acc.getD v 0 := by
    intro ps
    induction ps with
    | nil => intro acc _; rfl
    | cons p rest ih =>
        intro acc hp
        rw [List.foldl_cons, ih _ (fun q hq => hp q (List.mem_cons_of_mem p hq)),
          accumClause_getD_ne _ _ _ (hp p (List.mem_cons_self p rest))]
  rw [hgen _ _ (fun p hp => hv p.1 (List.of_mem_zip hp).1), getD_replicate0]

theorem nextX_getD_zero (x2 : List ℚ) (nvars v : ℕ) (norm : ℚ)
    (h0 : x2.getD v 0 = 0) :
    ((0 : ℚ) :: (List.range nvars).map
      (fun i => x2.getD (i + 1) 0 / norm)).getD v 0 = 0 := by
  cases v with
  | zero => rfl
  | succ j =>
      rw [List.getD_cons_succ, List.getD_eq_getElem?_getD, List.getElem?_map]
      by_cases hj : j < nvars
      · rw [List.getElem?_range hj]
        show (some (x2.getD (j + 1) 0 / norm)).getD 0 = 0
        rw [Option.getD_some, h0, zero_div]
      · rw [List.getElem?_eq_none (by simp only [List.length_range]; omega)]
        rfl

theorem power_iter_go_zero (sqrtQ : ℚ → ℚ) (cv : List (List ℕ)) (nvars v : ℕ)
    (hv : ∀ vs ∈ cv, v ∉ vs) :
    ∀ (iters : ℕ) (x : List ℚ), x.getD v 0 = 0 →
      (power_iter_var_scores_go sqrtQ cv nvars iters x).getD v 0 = 0 := by
  intro iters
  induction iters with
  | zero => intro x hx; exact hx
  | succ n ih =>
      intro x hx
      simp only [power_iter_var_scores_go]
      by_cases hn : sqrtQ (sumSq (newX2 cv (clauseScores x cv) nvars) nvars) = 0
      · rw [if_pos hn]; exact hx
      · rw [if_neg hn]
        exact ih _ (nextX_getD_zero _ nvars v _
          (newX2_getD_unref cv _ nvars v hv))

theorem build_clause_vars_unref (clauses : List (List ℤ)) (nvars v : ℕ)
    (hv : ∀ cl ∈ clauses, ∀ lit ∈ cl, lit.natAbs ≠ v) :
    ∀ vs ∈ build_clause_vars clauses nvars, v ∉ vs := by
  intro vs hvs hmem
  unfold build_clause_vars at hvs
  rcases List.mem_map.mp hvs with ⟨cl, hcl, he⟩
  rw [← he] at hmem
  have h2 := List.mem_of_mem_filter hmem
  rcases List.mem_map.mp h2 with ⟨lit, hlit, habs⟩
  exact hv cl hcl lit hlit habs

theorem mem_varRange (n v : ℕ) : v ∈ varRange n ↔ 1 ≤ v ∧ v ≤ n := by
  unfold varRange
  constructor
  · intro h
    rcases List.mem_map.mp h with ⟨i, hi, he⟩
    have := List.mem_range.mp hi
    omega
  · intro h
    exact List.mem_map.mpr ⟨v - 1, List.mem_range.mpr (by omega), by omega⟩

/-- C5 (amended): the clean scorer initializes EVERY variable 1..nvars to
1.0 (occurring in a clause or not); after at least one full power iteration
(first normalization divisor nonzero) every variable occurring in no clause
scores exactly 0; and the Rayleigh selector draws from ALL of 1..nvars, so
each selected literal's variable lies in 1..nvars but need not occur in any
clause. -/
theorem c5_amended (sqrtQ : ℚ → ℚ) (nvars iters : ℕ) (clauses : List (List ℤ))
    (v : ℕ) (k : ℕ) (avoid : Finset ℤ) :
    (1 ≤ v → v ≤ nvars → (initX nvars).getD v 0 = 1) ∧
    ((∀ cl ∈ clauses, ∀ lit ∈ cl, lit.natAbs ≠ v) → 1 ≤ iters →
      firstNorm sqrtQ (build_clause_vars clauses nvars) nvars ≠ 0 →
      (power_iter_var_scores sqrtQ (build_clause_vars clauses nvars) nvars
        iters).getD v 0 = 0) ∧
    (∀ lit ∈ pick_units_rayleigh sqrtQ nvars clauses k iters avoid,
      1 ≤ lit.natAbs ∧ lit.natAbs ≤ nvars) := by
  refine ⟨?_, ?_, ?_⟩
  · intro h1 h2
    unfold initX
    cases v with
    | zero => omega
    | succ j =>
        rw [List.getD_cons_succ, List.getD_eq_getElem?_getD]
        rw [List.getElem?_replicate]
        rw [if_pos (by omega)]
        rfl
  · intro hv hit hn
    have hunref := build_clause_vars_unref clauses nvars v hv
    rcases Nat.exists_eq_add_of_le hit with ⟨j, hj⟩
    rw [hj]
    unfold power_iter_var_scores
    rw [show 1 + j = j + 1 from by omega]
    unfold firstNorm at hn
    simp only [power_iter_var_scores_go]
    rw [if_neg hn]
    exact power_iter_go_zero sqrtQ _ nvars v hunref j _
      (nextX_getD_zero _ nvars v _ (newX2_getD_unref _ _ nvars v hunref))
  · intro lit hl
    unfold pick_units_rayleigh at hl
    rcases choose_go_mem _ avoid k _ [] lit hl with h1 | ⟨_, _, w, hw, he⟩
    · cases h1
    · have hwr : w ∈ varRange nvars :=
        (pySort_mem _ (varRange nvars) w).mp hw
      have hrange := (mem_varRange nvars w).mp hwr
      have habs : lit.natAbs = w := by
        rcases lsp_pol sqrtQ clauses nvars iters w with hp | hp <;>
          rw [he, hp] <;> simp
      omega

def c5_sqrt : ℚ → ℚ := fun q => q

theorem sumSq_replicate0 (m n : ℕ) : sumSq (List.replicate m 0) n = 0 := by
  induction n with
  | zero => rfl
  | succ j ih =>
      unfold sumSq at ih ⊢
      rw [List.range_succ, List.map_append, List.sum_append, ih,
        List.map_singleton, List.sum_singleton, getD_replicate0]
      norm_num

theorem c5_break :
    power_iter_var_scores c5_sqrt (build_clause_vars [] 2) 2 25 = initX 2 := by
  have hn : c5_sqrt (sumSq (newX2 (build_clause_vars ([] : List (List ℤ)) 2)
      (clauseScores (initX 2) (build_clause_vars ([] : List (List ℤ)) 2)) 2)
      2) = 0 := by
    show sumSq (List.replicate 3 (0 : ℚ)) 2 = 0
    exact sumSq_replicate0 3 2
  unfold power_iter_var_scores
  rw [show (25 : ℕ) = 24 + 1 from rfl]
  simp only [power_iter_var_scores_go]
  rw [if_pos hn]

theorem c5_scores (v : ℕ) :
    literal_scores_and_polarity c5_sqrt [] 2 25 v =
      ((initX 2).getD v 0 * (0 + 0 + eps12), 1) := by
  simp only [literal_scores_and_polarity]
  rw [c5_break]
  rw [show posNegWeights ([] : List (List ℤ)) (clauseMass [] (initX 2)) 2 =
    (List.replicate 3 0, List.replicate 3 0) from rfl]
  rw [show (List.replicate 3 (0:ℚ), List.replicate 3 (0:ℚ)).1 =
    List.replicate 3 (0:ℚ) from rfl]
  rw [show (List.replicate 3 (0:ℚ), List.replicate 3 (0:ℚ)).2 =
    List.replicate 3 (0:ℚ) from rfl]
  rw [getD_replicate0]
  rw [if_pos (le_refl (0 : ℚ))]

theorem c5_order :
    rayleighOrder
      (fun v => (literal_scores_and_polarity c5_sqrt [] 2 25 v).1) 2 =
      [1, 2] := by
  have h12 : (literal_scores_and_polarity c5_sqrt [] 2 25 1).1 =
      (literal_scores_and_polarity c5_sqrt [] 2 25 2).1 := by
    rw [c5_scores 1, c5_scores 2]
    rfl
  have hd : decide ((literal_scores_and_polarity c5_sqrt [] 2 25 2).1 <
      (literal_scores_and_polarity c5_sqrt [] 2 25 2).1) = false :=
    decide_eq_false (lt_irrefl _)
  unfold rayleighOrder
  rw [show varRange 2 = [1, 2] from rfl]
  simp only [pySort, pyInsert]
  simp only [h12, hd]
  simp

theorem c5_choose : pick_units_rayleigh c5_sqrt 2 [] 2 25 ∅ = [1, 2] := by
  simp only [pick_units_rayleigh]
  rw [c5_order]
  have hp1 : (literal_scores_and_polarity c5_sqrt [] 2 25 1).2 = 1 := by
    rw [c5_scores 1]
  have hp2 : (literal_scores_and_polarity c5_sqrt [] 2 25 2).2 = 1 := by
    rw [c5_scores 2]
  simp only [choose_go, hp1, hp2, Finset.not_mem_empty, or_self, if_false]
  norm_num

/-- C5 counterexample: a 2-variable CNF with an empty clause list (the file
p cnf 2 0, accepted by read_dimacs).  Both variables occur in no clause, yet
the initial score vector assigns them 1.0 (the claim says 0.0 for
non-occurring variables), the returned score vector still assigns them 1.0
(zero-norm short circuit), and pick_units_rayleigh with k = 2 returns
literals on both unreferenced variables. -/
theorem c5_counterexample :
    (initX 2).getD 2 0 = 1 ∧
    (power_iter_var_scores c5_sqrt (build_clause_vars [] 2) 2 25).getD 2 0 = 1 ∧
    pick_units_rayleigh c5_sqrt 2 [] 2 25 ∅ = [1, 2] :=
  ⟨rfl, by rw [c5_break]; rfl, c5_choose⟩

theorem c5_fn1 : firstNorm c5_sqrt (build_clause_vars [[1]] 2) 2 = 1 := by
  norm_num [firstNorm, build_clause_vars, clauseScores, newX2, accumClause,
    sumSq, initX, c5_sqrt, List.range_succ]

/-- C5 witness: the amended theorem at nvars = 2, clauses = [[1]]: variable
2 is unreferenced, starts at score 1.0, and after one full iteration (first
norm 1) scores exactly 0; every literal selected on this CNF has its
variable in 1..2. -/
theorem c5_amended_witness :
    (initX 2).getD 2 0 = 1 ∧
    (power_iter_var_scores c5_sqrt (build_clause_vars [[1]] 2) 2 1).getD 2 0 = 0 ∧
    (∀ lit ∈ pick_units_rayleigh c5_sqrt 2 [[1]] 1 1 ∅,
      1 ≤ lit.natAbs ∧ lit.natAbs ≤ 2) :=
  ⟨(c5_amended c5_sqrt 2 1 [[1]] 2 1 ∅).1 (by decide) (by decide),
   (c5_amended c5_sqrt 2 1 [[1]] 2 1 ∅).2.1 (by decide) (by decide)
     (ne_of_eq_of_ne c5_fn1 one_ne_zero),
   (c5_amended c5_sqrt 2 1 [[1]] 2 1 ∅).2.2⟩

/-!
Claims C6 and C10: solver-report parsing invariants.
-/

theorem hasSub_iff (p : PyStr) : ∀ s : PyStr, hasSub p s = true ↔ p <:+: s := by
  intro s
  induction s with
  | nil =>
      simp only [hasSub, List.isPrefixOf_iff_prefix]
      constructor
      · intro h
        exact h.isInfix
      · intro h
        rw [List.eq_nil_of_infix_nil h]
  | cons c rest ih =>
      simp only [hasSub, Bool.or_eq_true, List.isPrefixOf_iff_prefix, ih]
      exact (List.infix_cons_iff).symm

theorem hasSub_unsat_sat (s : PyStr) (h : hasSub unsatStr s = true) :
    hasSub satStr s = true := by
  rw [hasSub_iff] at h ⊢
  have hsub : satStr <:+: unsatStr := by decide
  exact hsub.trans h

theorem bool_not_true_eq_false (b : Bool) (h : ¬ b = true) : b = false := by
  cases b
  · rfl
  · exact absurd rfl h

theorem clean_step_id (st : String × ℤ × ℚ) (l : PyStr)
    (hs : ¬(startsWithS sSpace (pyStrip l) = true ∧
      hasSub satStr (pyStrip l) = true))
    (hc : startsWithS cConflicts (pyStrip l) = false)
    (ht : startsWithS cCpuTime (pyStrip l) = false) :
    parse_glucose_log_step st l = st := by
  by_cases hss : startsWithS sSpace (pyStrip l) = true
  · have hsat : hasSub satStr (pyStrip l) = false :=
      bool_not_true_eq_false _ (fun h2 => hs ⟨hss, h2⟩)
    have hunsat : hasSub unsatStr (pyStrip l) = false :=
      bool_not_true_eq_false _ (fun h2 => by rw [hasSub_unsat_sat _ h2] at hsat; cases hsat)
    simp [parse_glucose_log_step, hc, ht, hss, hsat, hunsat]
  · simp [parse_glucose_log_step, hc, ht, bool_not_true_eq_false _ hss]

theorem clean_fold_id (lines : List PyStr) (st : String × ℤ × ℚ)
    (hs : ∀ l ∈ lines, ¬(startsWithS sSpace (pyStrip l) = true ∧
      hasSub satStr (pyStrip l) = true))
    (hc : ∀ l ∈ lines, startsWithS cConflicts (pyStrip l) = false)
    (ht : ∀ l ∈ lines, startsWithS cCpuTime (pyStrip l) = false) :
    lines.foldl parse_glucose_log_step st = st := by
  induction lines generalizing st with
  | nil => rfl
  | cons a rest ih =>
      rw [List.foldl_cons,
        clean_step_id st a (hs a (List.mem_cons_self a rest))
          (hc a (List.mem_cons_self a rest)) (ht a (List.mem_cons_self a rest))]
      exact ih st (fun l hl => hs l (List.mem_cons_of_mem a hl))
        (fun l hl => hc l (List.mem_cons_of_mem a hl))
        (fun l hl => ht l (List.mem_cons_of_mem a hl))

theorem v1_step_id (st : Option String × Option ℕ × Option ℚ) (l : PyStr)
    (hs : ¬(startsWithS sSpace (pyStrip l) = true ∧
      hasSub satStr (pyStrip l) = true))
    (hc : startsWithS cConflicts (pyStrip l) = false)
    (ht : startsWithS cCpuTime (pyStrip l) = false) :
    parse_glucose_output_step st l = st := by
  by_cases hss : startsWithS sSpace (pyStrip l) = true
  · have hsat : hasSub satStr (pyStrip l) = false :=
      bool_not_true_eq_false _ (fun h2 => hs ⟨hss, h2⟩)
    have hunsat : hasSub unsatStr (pyStrip l) = false :=
      bool_not_true_eq_false _ (fun h2 => by rw [hasSub_unsat_sat _ h2] at hsat; cases hsat)
    simp [parse_glucose_output_step, hc, ht, hss, hsat, hunsat]
  · simp [parse_glucose_output_step, hc, ht, bool_not_true_eq_false _ hss]

theorem v1_fold_id (lines : List PyStr) (st : Option String × Option ℕ × Option ℚ)
    (hs : ∀ l ∈ lines, ¬(startsWithS sSpace (pyStrip l) = true ∧
      hasSub satStr (pyStrip l) = true))
    (hc : ∀ l ∈ lines, startsWithS cConflicts (pyStrip l) = false)
    (ht : ∀ l ∈ lines, startsWithS cCpuTime (pyStrip l) = false) :
    lines.foldl parse_glucose_output_step st = st := by
  induction lines generalizing st with
  | nil => rfl
  | cons a rest ih =>
      rw [List.foldl_cons,
        v1_step_id st a (hs a (List.mem_cons_self a rest))
          (hc a (List.mem_cons_self a rest)) (ht a (List.mem_cons_self a rest))]
      exact ih st (fun l hl => hs l (List.mem_cons_of_mem a hl))
        (fun l hl => hc l (List.mem_cons_of_mem a hl))
        (fun l hl => ht l (List.mem_cons_of_mem a hl))

theorem clean_step_status (st : String × ℤ × ℚ) (l : PyStr) :
    (parse_glucose_log_step st l).1 = statusSat ∨
    (parse_glucose_log_step st l).1 = statusUnsat ∨
    (parse_glucose_log_step st l).1 = st.1 := by
  simp only [parse_glucose_log_step]
  split
  · split
    · exact Or.inl rfl
    · split
      · exact Or.inr (Or.inl rfl)
      · exact Or.inr (Or.inr rfl)
  · exact Or.inr (Or.inr rfl)

theorem clean_fold_status (lines : List PyStr) :
    ∀ st : String × ℤ × ℚ,
      st.1 = statusSat ∨ st.1 = statusUnsat ∨ st.1 = statusUnknown →
      ((lines.foldl parse_glucose_log_step st).1 = statusSat ∨
       (lines.foldl parse_glucose_log_step st).1 = statusUnsat ∨
       (lines.foldl parse_glucose_log_step st).1 = statusUnknown) := by
  induction lines with
  | nil => intro st h; exact h
  | cons a rest ih =>
      intro st h
      rw [List.foldl_cons]
      refine ih _ ?_
      rcases clean_step_status st a with h1 | h1 | h1
      · exact Or.inl h1
      · exact Or.inr (Or.inl h1)
      · rw [h1]; exact h

theorem v1_step_status (st : Option String × Option ℕ × Option ℚ) (l : PyStr) :
    (parse_glucose_output_step st l).1 = some statusSat ∨
    (parse_glucose_output_step st l).1 = some statusUnsat ∨
    (parse_glucose_output_step st l).1 = st.1 := by
  simp only [parse_glucose_output_step]
  split
  · split
    · exact Or.inr (Or.inl rfl)
    · split
      · exact Or.inl rfl
      · exact Or.inr (Or.inr rfl)
  · exact Or.inr (Or.inr rfl)

theorem v1_fold_status (lines : List PyStr) :
    ∀ st : Option String × Option ℕ × Option ℚ,
      st.1 = some statusSat ∨ st.1 = some statusUnsat ∨ st.1 = none →
      ((lines.foldl parse_glucose_output_step st).1 = some statusSat ∨
       (lines.foldl parse_glucose_output_step st).1 = some statusUnsat ∨
       (lines.foldl parse_glucose_output_step st).1 = none) := by
  induction lines with
  | nil => intro st h; exact h
  | cons a rest ih =>
      intro st h
      rw [List.foldl_cons]
      refine ih _ ?_
      rcases v1_step_status st a with h1 | h1 | h1
      · exact Or.inl h1
      · exact Or.inr (Or.inl h1)
      · rw [h1]; exact h

theorem conflicts_scan_none : ∀ (parts : List PyStr) (c : ℤ),
    (∀ t ∈ parts, pyInt? t = none) → conflicts_scan parts c = c := by
  intro parts
  induction parts with
  | nil => intro c _; rfl
  | cons a rest ih =>
      intro c h
      cases rest with
      | nil => rfl
      | cons b r2 =>
          simp only [conflicts_scan]
          rw [h b (List.mem_cons_of_mem a (List.mem_cons_self b r2))]
          by_cases ha : a = conflictsWord
          · rw [if_pos ha]
            exact ih c (fun t ht => h t (List.mem_cons_of_mem a ht))
          · rw [if_neg ha]
            exact ih c (fun t ht => h t (List.mem_cons_of_mem a ht))

theorem cpu_update_none (parts : List PyStr) (q : ℚ)
    (h : ∀ t ∈ parts, pyFloat? t = none) : cpu_update parts q = q := by
  unfold cpu_update
  cases hl : parts.getLast? with
  | none => rfl
  | some t =>
      dsimp only
      have hmem : t ∈ parts := List.mem_of_mem_getLast? hl
      by_cases hts : t = sWord
      · rw [if_pos hts]
        cases hg : parts.get? (parts.length - 2) with
        | none => rfl
        | some u =>
            have hu : pyFloat? u = none := h u (List.get?_mem hg)
            simp [hg, hu]
      · rw [if_neg hts, h t hmem]

theorem clean_step_conflicts (st : String × ℤ × ℚ) (l : PyStr)
    (hc : startsWithS cConflicts (pyStrip l) = false) :
    (parse_glucose_log_step st l).2.1 = st.2.1 := by
  simp [parse_glucose_log_step, hc]

theorem clean_step_cpu (st : String × ℤ × ℚ) (l : PyStr)
    (ht : startsWithS cCpuTime (pyStrip l) = false) :
    (parse_glucose_log_step st l).2.2 = st.2.2 := by
  simp [parse_glucose_log_step, ht]

theorem clean_fold_conflicts (lines : List PyStr)
    (hc : ∀ l ∈ lines, startsWithS cConflicts (pyStrip l) = false) :
    ∀ st : String × ℤ × ℚ,
      (lines.foldl parse_glucose_log_step st).2.1 = st.2.1 := by
  induction lines with
  | nil => intro st; rfl
  | cons a rest ih =>
      intro st
      rw [List.foldl_cons, ih (fun l hl => hc l (List.mem_cons_of_mem a hl)),
        clean_step_conflicts st a (hc a (List.mem_cons_self a rest))]

theorem clean_fold_cpu (lines : List PyStr)
    (ht : ∀ l ∈ lines, startsWithS cCpuTime (pyStrip l) = false) :
    ∀ st : String × ℤ × ℚ,
      (lines.foldl parse_glucose_log_step st).2.2 = st.2.2 := by
  induction lines with
  | nil => intro st; rfl
  | cons a rest ih =>
      intro st
      rw [List.foldl_cons, ih (fun l hl => ht l (List.mem_cons_of_mem a hl)),
        clean_step_cpu st a (ht a (List.mem_cons_self a rest))]

theorem np_step_conflicts (st : String × Option ℤ × Option ℚ) (l : PyStr)
    (hcl : startsWithS cConflicts (pyLower (pyStrip l)) = false) :
    (parse_glucose_log_np_step st l).2.1 = st.2.1 := by
  simp [parse_glucose_log_np_step, hcl]

theorem np_step_cpu (st : String × Option ℤ × Option ℚ) (l : PyStr)
    (htl : startsWithS cCpuTimeLower (pyLower (pyStrip l)) = false) :
    (parse_glucose_log_np_step st l).2.2 = st.2.2 := by
  simp [parse_glucose_log_np_step, htl]

theorem np_fold_conflicts (lines : List PyStr)
    (hcl : ∀ l ∈ lines, startsWithS cConflicts (pyLower (pyStrip l)) = false) :
    ∀ st : String × Option ℤ × Option ℚ,
      (lines.foldl parse_glucose_log_np_step st).2.1 = st.2.1 := by
  induction lines with
  | nil => intro st; rfl
  | cons a rest ih =>
      intro st
      rw [List.foldl_cons, ih (fun l hl => hcl l (List.mem_cons_of_mem a hl)),
        np_step_conflicts st a (hcl a (List.mem_cons_self a rest))]

theorem np_fold_cpu (lines : List PyStr)
    (htl : ∀ l ∈ lines, startsWithS cCpuTimeLower (pyLower (pyStrip l)) = false) :
    ∀ st : String × Option ℤ × Option ℚ,
      (lines.foldl parse_glucose_log_np_step st).2.2 = st.2.2 := by
  induction lines with
  | nil => intro st; rfl
  | cons a rest ih =>
      intro st
      rw [List.foldl_cons, ih (fun l hl => htl l (List.mem_cons_of_mem a hl)),
        np_step_cpu st a (htl a (List.mem_cons_self a rest))]

/-- C6: the adapters are total and three-valued.  The clean parser always
yields a status among SAT / UNSAT / UNKNOWN, the v1 parser among
Some SAT / Some UNSAT / None (None is UNKNOWN, written as an empty CSV
field).  When no line carries a verdict substring the clean parser returns
exactly (UNKNOWN, 10**18, 0.0) and the v1 parser (None, None, None) — the
run is not aborted, a row is still logged.  Numeric sub-fields whose tokens
fail int()/float() leave the current (sentinel) value in place instead of
raising. -/
theorem c6_adapter (lines : List PyStr)
    (hs : ∀ l ∈ lines, ¬(startsWithS sSpace (pyStrip l) = true ∧
      hasSub satStr (pyStrip l) = true))
    (hc : ∀ l ∈ lines, startsWithS cConflicts (pyStrip l) = false)
    (ht : ∀ l ∈ lines, startsWithS cCpuTime (pyStrip l) = false) :
    parse_glucose_log_clean lines = (statusUnknown, clean_sentinel_conflicts, 0) ∧
    parse_glucose_output lines = (none, none, none) ∧
    (∀ ls : List PyStr, (parse_glucose_log_clean ls).1 = statusSat ∨
      (parse_glucose_log_clean ls).1 = statusUnsat ∨
      (parse_glucose_log_clean ls).1 = statusUnknown) ∧
    (∀ ls : List PyStr, (parse_glucose_output ls).1 = some statusSat ∨
      (parse_glucose_output ls).1 = some statusUnsat ∨
      (parse_glucose_output ls).1 = none) ∧
    (∀ (parts : List PyStr) (c : ℤ), (∀ t ∈ parts, pyInt? t = none) →
      conflicts_scan parts c = c) ∧
    (∀ (parts : List PyStr) (q : ℚ), (∀ t ∈ parts, pyFloat? t = none) →
      cpu_update parts q = q) :=
  ⟨clean_fold_id lines _ hs hc ht, v1_fold_id lines _ hs hc ht,
   fun ls => clean_fold_status ls _ (Or.inr (Or.inr rfl)),
   fun ls => v1_fold_status ls _ (Or.inr (Or.inr rfl)),
   conflicts_scan_none, cpu_update_none⟩

def c6_lines : List PyStr := ["c timeout".toList]

/-- C6 witness: a report consisting of one comment line and no verdict
parses to (UNKNOWN, sentinel, 0.0) in the clean adapter and
(None, None, None) in the v1 adapter. -/
theorem c6_adapter_witness :
    parse_glucose_log_clean c6_lines =
      (statusUnknown, clean_sentinel_conflicts, 0) ∧
    parse_glucose_output c6_lines = (none, none, none) :=
  ⟨(c6_adapter c6_lines (by decide) (by decide) (by decide)).1,
   (c6_adapter c6_lines (by decide) (by decide) (by decide)).2.1⟩

/-- C10: on a report with no conflicts line, the clean and force-walk
parsers return the sentinel 10**18 (so the conflicts == 0 stop condition
can never fire on such a report); on a report with no CPU-time line they
return 0.0; the numpy variant returns -1 and -1.0 instead. -/
theorem c10_sentinels (lines : List PyStr)
    (hc : ∀ l ∈ lines, startsWithS cConflicts (pyStrip l) = false)
    (ht : ∀ l ∈ lines, startsWithS cCpuTime (pyStrip l) = false)
    (hcl : ∀ l ∈ lines, startsWithS cConflicts (pyLower (pyStrip l)) = false)
    (htl : ∀ l ∈ lines, startsWithS cCpuTimeLower (pyLower (pyStrip l)) = false) :
    (parse_glucose_log_clean lines).2.1 = 10 ^ 18 ∧
    (parse_glucose_log_clean lines).2.2 = 0 ∧
    (parse_glucose_log_fw lines).2.1 = 10 ^ 18 ∧
    (parse_glucose_log_fw lines).2.2 = 0 ∧
    stop_zero_conflicts (parse_glucose_log_clean lines) = false ∧
    (parse_glucose_log_np lines).2.1 = -1 ∧
    (parse_glucose_log_np lines).2.2 = -1 := by
  have h1 : (parse_glucose_log_clean lines).2.1 = 10 ^ 18 :=
    clean_fold_conflicts lines hc _
  have h2 : (parse_glucose_log_clean lines).2.2 = 0 :=
    clean_fold_cpu lines ht _
  have h5 : stop_zero_conflicts (parse_glucose_log_clean lines) = false := by
    unfold stop_zero_conflicts
    apply decide_eq_false
    intro hcon
    rw [h1] at hcon
    exact absurd hcon.1 (by norm_num)
  have h6 : (parse_glucose_log_np lines).2.1 = -1 := by
    simp only [parse_glucose_log_np]
    rw [np_fold_conflicts lines hcl _]
    rfl
  have h7 : (parse_glucose_log_np lines).2.2 = -1 := by
    simp only [parse_glucose_log_np]
    rw [np_fold_cpu lines htl _]
    rfl
  exact ⟨h1, h2, clean_fold_conflicts lines hc _, clean_fold_cpu lines ht _,
    h5, h6, h7⟩

def c10_lines : List PyStr := ["s UNSATISFIABLE".toList]

/-- C10 witness: a report carrying only a verdict line (an UNSAT answer
with no statistics, e.g. a truncated log) still gets the sentinels, and the
zero-conflict stop condition cannot fire on it. -/
theorem c10_sentinels_witness :
    (parse_glucose_log_clean c10_lines).2.1 = 10 ^ 18 ∧
    stop_zero_conflicts (parse_glucose_log_clean c10_lines) = false ∧
    (parse_glucose_log_np c10_lines).2.1 = -1 :=
  ⟨(c10_sentinels c10_lines (by decide) (by decide) (by decide) (by decide)).1,
   (c10_sentinels c10_lines (by decide) (by decide) (by decide) (by decide)).2.2.2.2.1,
   (c10_sentinels c10_lines (by decide) (by decide) (by decide) (by decide)).2.2.2.2.2.1⟩

/-!
Claim C8: header clause counts.  apply_units.py rewrites the header from
the DECLARED input count; write_dimacs emits the actual clause-list length.
-/

/-- Python s.startswith(p-then-space) at token level: first token is
exactly the word p and the line has a second token. -/
def startsPSpace (line : DLine) : Bool :=
  decide (line.get? 0 = some wordP ∧ 2 ≤ line.length)

def errNoHeaderApply : String := "error: DIMACS header not found"

def errIndexOrValue : String := "IndexError or ValueError on p-line counts"

/-- First pass of apply_units.py (lines 22-39): find num_vars / num_clauses
on each p-line (the last one wins); a p-line with fewer than four tokens
raises IndexError and a non-integer count raises ValueError — both crash
the script (merged into one error value here). -/
def apply_units_scan (nums : Option ℤ × Option ℤ) :
    List DLine → PyResult (Option ℤ × Option ℤ)
  | [] => .ok nums
  | line :: rest =>
      if line.isEmpty ∨ lineStartsChar line ('c') then
        apply_units_scan nums rest
      else if startsPSpace line then
        match (line.get? 2).bind tokInt?, (line.get? 3).bind tokInt? with
        | some nv, some nc => apply_units_scan (some nv, some nc) rest
        | _, _ => .err errIndexOrValue
      else apply_units_scan nums rest

def headerLineZ (nv nc : ℤ) : DLine :=
  [wordP, wordCnf, Tok.int nv, Tok.int nc]

/-- Second pass of apply_units.py (lines 44-52): replace the FIRST p-line
with the new header p cnf num_vars (declared + added), keep everything
else. -/
def apply_units_rewrite (nv newCount : ℤ) : List DLine → Bool → List DLine
  | [], _ => []
  | line :: rest, headerDone =>
      if headerDone = false ∧ startsPSpace line = true then
        headerLineZ nv newCount :: apply_units_rewrite nv newCount rest true
      else line :: apply_units_rewrite nv newCount rest headerDone

/-- apply_units.py (lines 9-61): scan, rewrite the header with
num_clauses + len(lits), append one unit-clause line per literal. -/
def apply_units (lines : List DLine) (lits : List ℤ) :
    PyResult (List DLine) :=
  match apply_units_scan (none, none) lines with
  | .err m => .err m
  | .ok (none, _) => .err errNoHeaderApply
  | .ok (some _, none) => .err errNoHeaderApply
  | .ok (some nv, some nc) =>
      .ok (apply_units_rewrite nv (nc + lits.length) lines false ++
        lits.map (fun l => clauseLine [l]))

/-- A line the DIMACS readers would treat as a clause body line. -/
def isBodyLine (l : DLine) : Bool :=
  !l.isEmpty && !lineStartsChar l ('c') && !lineStartsChar l ('p')

def body_clause_count (lines : List DLine) : ℕ :=
  (lines.filter isBodyLine).length

def header_declared : DLine → Option ℤ
  | [_, _, Tok.int _, Tok.int nc] => some nc
  | _ => none

/-- The clause count declared by the first p-header of a serialized file. -/
def declared_count (lines : List DLine) : Option ℤ :=
  (lines.find? startsPSpace).bind header_declared

theorem body_count_cons (x : DLine) (t : List DLine) :
    body_clause_count (x :: t) =
      (if isBodyLine x = true then 1 else 0) + body_clause_count t := by
  unfold body_clause_count
  rw [List.filter_cons]
  by_cases h : isBodyLine x = true
  · rw [if_pos h, if_pos h, List.length_cons]
    omega
  · rw [if_neg h, if_neg h]
    omega

theorem body_count_append (a b : List DLine) :
    body_clause_count (a ++ b) = body_clause_count a + body_clause_count b := by
  unfold body_clause_count
  rw [List.filter_append, List.length_append]

theorem isBodyLine_clauseLine (cl : List ℤ) : isBodyLine (clauseLine cl) = true := by
  cases cl <;> rfl

theorem body_count_units (lits : List ℤ) :
    body_clause_count (lits.map (fun l => clauseLine [l])) = lits.length := by
  induction lits with
  | nil => rfl
  | cons x xs ih =>
      rw [List.map_cons, body_count_cons, ih, isBodyLine_clauseLine [x],
        if_pos rfl, List.length_cons]
      omega

theorem startsPSpace_not_body (l : DLine) (h : startsPSpace l = true) :
    isBodyLine l = false := by
  rcases of_decide_eq_true h with ⟨h0, _⟩
  cases l with
  | nil => cases h0
  | cons t rest =>
      have ht : t = wordP := by
        simp only [List.get?] at h0
        exact Option.some.inj h0
      subst ht
      rfl

theorem comment_not_psp (l : DLine) (h : IsCommentLine l) :
    startsPSpace l = false := by
  apply decide_eq_false
  rintro ⟨h0, -⟩
  cases l with
  | nil => cases h0
  | cons t rest =>
      have ht : t = wordP := by
        simp only [List.get?] at h0
        exact Option.some.inj h0
      rw [IsCommentLine, lineStartsChar, ht] at h
      cases h

theorem find?_append_some {p : DLine → Bool} :
    ∀ (l1 l2 : List DLine) (x : DLine), l1.find? p = some x →
      (l1 ++ l2).find? p = some x := by
  intro l1
  induction l1 with
  | nil => intro l2 x h; cases h
  | cons a t ih =>
      intro l2 x h
      by_cases ha : p a = true
      · rw [List.find?_cons_of_pos _ ha] at h
        rw [List.cons_append, List.find?_cons_of_pos _ ha]
        exact h
      · rw [List.find?_cons_of_neg _ (by simpa using ha)] at h
        rw [List.cons_append, List.find?_cons_of_neg _ (by simpa using ha)]
        exact ih l2 x h

theorem find?_append_none {p : DLine → Bool} :
    ∀ (l1 l2 : List DLine), (∀ x ∈ l1, p x = false) →
      (l1 ++ l2).find? p = l2.find? p := by
  intro l1
  induction l1 with
  | nil => intro l2 _; rfl
  | cons a t ih =>
      intro l2 h
      rw [List.cons_append,
        List.find?_cons_of_neg _ (by simp [h a (List.mem_cons_self a t)]),
        ih l2 (fun x hx => h x (List.mem_cons_of_mem a hx))]

theorem apply_units_scan_progress :
    ∀ (lines : List DLine) (nums r : Option ℤ × Option ℤ),
      apply_units_scan nums lines = .ok r →
      r = nums ∨ ∃ l ∈ lines, startsPSpace l = true := by
  intro lines
  induction lines with
  | nil =>
      intro nums r h
      simp only [apply_units_scan] at h
      cases h
      exact Or.inl rfl
  | cons line rest ih =>
      intro nums r h
      simp only [apply_units_scan] at h
      by_cases h1 : line.isEmpty = true ∨ lineStartsChar line ('c') = true
      · rw [if_pos (by simpa using h1)] at h
        rcases ih nums r h with h2 | ⟨l, hl, hp⟩
        · exact Or.inl h2
        · exact Or.inr ⟨l, List.mem_cons_of_mem line hl, hp⟩
      · rw [if_neg (by simpa using h1)] at h
        by_cases h2 : startsPSpace line = true
        · exact Or.inr ⟨line, List.mem_cons_self line rest, h2⟩
        · rw [if_neg h2] at h
          rcases ih nums r h with h3 | ⟨l, hl, hp⟩
          · exact Or.inl h3
          · exact Or.inr ⟨l, List.mem_cons_of_mem line hl, hp⟩

theorem startsPSpace_headerLineZ (nv nc : ℤ) :
    startsPSpace (headerLineZ nv nc) = true := by
  rfl

theorem apply_units_rewrite_find (nv m : ℤ) :
    ∀ lines : List DLine, (∃ l ∈ lines, startsPSpace l = true) →
      (apply_units_rewrite nv m lines false).find? startsPSpace =
        some (headerLineZ nv m) := by
  intro lines
  induction lines with
  | nil => rintro ⟨l, hl, -⟩; cases hl
  | cons line rest ih =>
      rintro ⟨l, hl, hp⟩
      by_cases h1 : startsPSpace line = true
      · simp only [apply_units_rewrite]
        rw [if_pos (by simp [h1])]
        exact List.find?_cons_of_pos _ (startsPSpace_headerLineZ nv m)
      · simp only [apply_units_rewrite]
        rw [if_neg (by simp [h1])]
        rw [List.find?_cons_of_neg _ (by simpa using h1)]
        apply ih
        rcases List.mem_cons.mp hl with he | hm
        · exact absurd (he ▸ hp) h1
        · exact ⟨l, hm, hp⟩

theorem apply_units_rewrite_body (nv m : ℤ) :
    ∀ (lines : List DLine) (done : Bool),
      body_clause_count (apply_units_rewrite nv m lines done) =
        body_clause_count lines := by
  intro lines
  induction lines with
  | nil => intro done; rfl
  | cons line rest ih =>
      intro done
      simp only [apply_units_rewrite]
      by_cases h1 : done = false ∧ startsPSpace line = true
      · rw [if_pos h1, body_count_cons, body_count_cons, ih,
          startsPSpace_not_body _ (startsPSpace_headerLineZ nv m),
          startsPSpace_not_body _ h1.2]
      · rw [if_neg h1, body_count_cons, body_count_cons, ih]

/-- C8 counterexample: a file declaring 5 clauses in its header while its
body has exactly 1 clause line.  apply_units with one unit writes a header
declaring 6 clauses over a body of 2 clause lines — the emitted header
count is taken from the declared input count, not from the body at write
time. -/
theorem c8_counterexample :
    apply_units [headerLine 1 5, clauseLine [1]] [1] =
      PyResult.ok [headerLineZ 1 6, clauseLine [1], clauseLine [1]] ∧
    declared_count [headerLineZ 1 6, clauseLine [1], clauseLine [1]] =
      some 6 ∧
    body_clause_count [headerLineZ 1 6, clauseLine [1], clauseLine [1]] = 2 ∧
    (6 : ℤ) ≠ 2 := by
  refine ⟨by decide, by decide, by decide, by decide⟩

/-- C8 (amended): write_dimacs always emits the actual clause-list length
(and its body has exactly that many clause lines), but the apply_units
rewrite emits input-declared-count + len(lits): its body grows by exactly
len(lits), while its emitted header equals the actual body count only when
the input header was accurate. -/
theorem c8_amended (c : Cnf) (lines : List DLine) (lits : List ℤ)
    (out : List DLine)
    (hcm : ∀ l ∈ c.comments, IsCommentLine l)
    (happ : apply_units lines lits = .ok out) :
    declared_count (write_dimacs c) = some (c.clauses.length : ℤ) ∧
    body_clause_count (write_dimacs c) = c.clauses.length ∧
    body_clause_count out = body_clause_count lines + lits.length ∧
    (∃ nv nc, apply_units_scan (none, none) lines = .ok (some nv, some nc) ∧
      declared_count out = some (nc + lits.length)) := by
  have hwd : declared_count (write_dimacs c) = some (c.clauses.length : ℤ) := by
    unfold write_dimacs declared_count
    rw [List.append_assoc,
      find?_append_none _ _ (fun x hx => comment_not_psp x (hcm x hx)),
      List.singleton_append,
      List.find?_cons_of_pos _ (by rfl)]
    rfl
  have hwb : body_clause_count (write_dimacs c) = c.clauses.length := by
    unfold write_dimacs
    rw [List.append_assoc, body_count_append, List.singleton_append,
      body_count_cons]
    have hcm0 : body_clause_count c.comments = 0 := by
      unfold body_clause_count
      rw [List.length_eq_zero, List.filter_eq_nil_iff]
      intro a ha
      have h2 := hcm a ha
      rw [IsCommentLine] at h2
      simp [isBodyLine, h2]
    have hh0 : isBodyLine (headerLine c.nvars c.clauses.length) = false := rfl
    rw [hcm0, hh0]
    have : body_clause_count (c.clauses.map clauseLine) = c.clauses.length := by
      induction c.clauses with
      | nil => rfl
      | cons x xs ih =>
          rw [List.map_cons, body_count_cons, ih, isBodyLine_clauseLine x,
            if_pos rfl, List.length_cons]
          omega
    rw [this]
    simp
  rcases hscan : apply_units_scan (none, none) lines with r | m
  case err =>
    rw [apply_units, hscan] at happ
    cases happ
  case ok =>
    rcases r with ⟨nvo, nco⟩
    cases nvo with
    | none =>
        rw [apply_units, hscan] at happ
        cases happ
    | some nv =>
        cases nco with
        | none =>
            rw [apply_units, hscan] at happ
            cases happ
        | some nc =>
            rw [apply_units, hscan] at happ
            have hout : out = apply_units_rewrite nv (nc + lits.length) lines false ++
                lits.map (fun l => clauseLine [l]) := by
              cases happ
              rfl
            have hex : ∃ l ∈ lines, startsPSpace l = true := by
              rcases apply_units_scan_progress lines (none, none) (some nv, some nc)
                hscan with h1 | h2
              · cases h1
              · exact h2
            refine ⟨hwd, hwb, ?_, nv, nc, rfl, ?_⟩
            · rw [hout, body_count_append, apply_units_rewrite_body,
                body_count_units]
            · rw [hout]
              unfold declared_count
              rw [find?_append_some _ _ _ (apply_units_rewrite_find nv
                (nc + lits.length) lines hex)]
              rfl

/-- C1 witness: the amended theorem at a concrete force-walk run and at a
concrete random call whose used set is {-1}: no returned literal equals a
used literal (the exact-repeat guarantee). -/
theorem c1_amended_witness :
    (forcewalk_selections (fun q => q) 1 1 1 0 [] ∅).flatten.Pairwise
      (fun a b => a.natAbs ≠ b.natAbs) ∧
    (∀ lit ∈ (pick_random_literals c1_draw_pos 1 1 {-1}).1,
      lit ∉ ({-1} : Finset ℤ)) :=
  ⟨(c1_amended (fun q => q) 1 1 1 0 [] c1_draw_pos 1 1 {-1}).1,
   (c1_amended (fun q => q) 1 1 1 0 [] c1_draw_pos 1 1 {-1}).2.1⟩

/-- C8 witness: the amended theorem at the counterexample file — the
write_dimacs header is the actual count, and the apply_units body grew by
exactly one clause line. -/
theorem c8_amended_witness :
    declared_count (write_dimacs ⟨1, [[1]], []⟩) =
      some (([[(1 : ℤ)]].length : ℤ)) ∧
    body_clause_count [headerLineZ 1 6, clauseLine [1], clauseLine [1]] =
      body_clause_count [headerLine 1 5, clauseLine [1]] + [(1 : ℤ)].length :=
  ⟨(c8_amended ⟨1, [[1]], []⟩ [headerLine 1 5, clauseLine [1]] [1]
      [headerLineZ 1 6, clauseLine [1], clauseLine [1]]
      (by decide) (by decide)).1,
   (c8_amended ⟨1, [[1]], []⟩ [headerLine 1 5, clauseLine [1]] [1]
      [headerLineZ 1 6, clauseLine [1], clauseLine [1]]
      (by decide) (by decide)).2.2.1⟩
